import Mathlib

/-! # ioutils: binary marshalling through reflection

A shallow embedding of `struct.go` (`ReadStruct`, `ReadArray`, `ReadBytes`, `ReadInt`,
`ReadUint`, `PadBytes`) and `write_struct.go` (`Write`), with the pieces of the Go standard
library they call (`encoding/binary`, `reflect`, `io.Reader`, `io.Writer`, `bytes.Buffer`)
modelled after their documented behaviour on a 64-bit platform.
-/

namespace Ioutils

/-! ## Bytes and byte order -/

/-- One Go `byte`. -/
abbrev Byte := Fin 256

/-- Conversion `byte(n)`: the low eight bits of `n`. -/
def byte (n : Nat) : Byte := ⟨n % 256, Nat.mod_lt n (by decide)⟩

/-- The two implementations of `binary.ByteOrder` the package is used with. -/
inductive ByteOrder
  | BigEndian
  | LittleEndian
  deriving DecidableEq

/-- Byte `i` of a buffer, for an index the callers keep in bounds. -/
def byteAt (b : List Byte) (i : Nat) : Nat := (b.getD i 0).val

/-- Go `binary.BigEndian.Uint64` / `binary.LittleEndian.Uint64`: the first eight bytes of `b`
read as an unsigned 64-bit number (Go panics on a shorter buffer; every call in this package
passes the result of `PadBytes _ 8 _`, which has at least eight bytes). -/
def ByteOrder.Uint64 (order : ByteOrder) (b : List Byte) : Nat :=
  match order with
  | .BigEndian =>
      byteAt b 7 + byteAt b 6 * 2 ^ 8 + byteAt b 5 * 2 ^ 16 + byteAt b 4 * 2 ^ 24
        + byteAt b 3 * 2 ^ 32 + byteAt b 2 * 2 ^ 40 + byteAt b 1 * 2 ^ 48 + byteAt b 0 * 2 ^ 56
  | .LittleEndian =>
      byteAt b 0 + byteAt b 1 * 2 ^ 8 + byteAt b 2 * 2 ^ 16 + byteAt b 3 * 2 ^ 24
        + byteAt b 4 * 2 ^ 32 + byteAt b 5 * 2 ^ 40 + byteAt b 6 * 2 ^ 48 + byteAt b 7 * 2 ^ 56

/-- Go `PutUint16` on a fresh two-byte buffer; `v` is a `uint16`. -/
def ByteOrder.PutUint16 (order : ByteOrder) (v : Nat) : List Byte :=
  match order with
  | .BigEndian => [byte (v / 2 ^ 8), byte v]
  | .LittleEndian => [byte v, byte (v / 2 ^ 8)]

/-- Go `PutUint32` on a fresh four-byte buffer; `v` is a `uint32`. -/
def ByteOrder.PutUint32 (order : ByteOrder) (v : Nat) : List Byte :=
  match order with
  | .BigEndian => [byte (v / 2 ^ 24), byte (v / 2 ^ 16), byte (v / 2 ^ 8), byte v]
  | .LittleEndian => [byte v, byte (v / 2 ^ 8), byte (v / 2 ^ 16), byte (v / 2 ^ 24)]

/-- Go `PutUint64` on a fresh eight-byte buffer; `v` is a `uint64`. -/
def ByteOrder.PutUint64 (order : ByteOrder) (v : Nat) : List Byte :=
  match order with
  | .BigEndian =>
      [byte (v / 2 ^ 56), byte (v / 2 ^ 48), byte (v / 2 ^ 40), byte (v / 2 ^ 32),
        byte (v / 2 ^ 24), byte (v / 2 ^ 16), byte (v / 2 ^ 8), byte v]
  | .LittleEndian =>
      [byte v, byte (v / 2 ^ 8), byte (v / 2 ^ 16), byte (v / 2 ^ 24),
        byte (v / 2 ^ 32), byte (v / 2 ^ 40), byte (v / 2 ^ 48), byte (v / 2 ^ 56)]

/-! ## Errors, readers and sinks -/

/-- The error values the package returns, one constructor per message format, and the errors
handed over by a reader or a sink. -/
inductive Error
  /-- The message `dest must be a pointer`. -/
  | destNotPointer
  /-- The message `field %s is not settable`. -/
  | notSettable
  /-- The message `value %s overflow on field %s`. -/
  | overflow
  /-- The message `datatype for field %s is not supported` of `ReadStruct`. -/
  | fieldNotSupported
  /-- The message `unsupported data type %s in %s`. -/
  | unsupportedDataType
  /-- The message `datatype for array %s is not supported`. -/
  | arrayNotSupported
  /-- The message `datatype %s not supported in %s`. -/
  | datatypeNotSupported
  /-- The message `datatype for field %s is not supported` of `Write`. -/
  | writeNotSupported
  /-- The error `io.EOF`. -/
  | eof
  /-- The error `io.ErrShortWrite`. -/
  | shortWrite
  /-- Any other error of a reader or sink. -/
  | foreign (code : Nat)
  deriving DecidableEq

/-- What one call `reader.Read(p)` does: the bytes it stored at the front of `p` (their number
is the returned `n`), the returned `err`, and the reader afterwards. -/
structure ReadOut (σ : Type) where
  data : List Byte
  err : Option Error
  next : σ

/-- An `io.Reader` with states in `σ`: `read s count` is `Read(p)` with `len(p) = count`. -/
abbrev Reader (σ : Type) := σ → Nat → ReadOut σ

/-- Go `bytes.Buffer.Read` on a buffer holding the unread bytes `buf`: an empty buffer gives
`(0, nil)` for an empty `p` and `(0, io.EOF)` otherwise; a non-empty one copies as many bytes
as fit and returns their number with a nil error. -/
def bytesBuffer : Reader (List Byte) := fun buf count =>
  if buf.isEmpty then
    if count = 0 then ⟨[], none, buf⟩ else ⟨[], some Error.eof, buf⟩
  else ⟨buf.take count, none, buf.drop count⟩

/-- What one call `dest.Write(p)` does: the returned `n` and `err`, and the sink afterwards. -/
structure WriteOut (τ : Type) where
  n : Nat
  err : Option Error
  next : τ

/-- An `io.Writer` with states in `τ`. -/
abbrev Writer (τ : Type) := τ → List Byte → WriteOut τ

/-- Go `bytes.Buffer.Write`: appends all of `p` and returns `(len(p), nil)`. The state is the
content of the buffer. -/
def bufferSink : Writer (List Byte) := fun content p =>
  ⟨p.length, none, content ++ p⟩

/-- A sink with room for `cap` bytes in all (the state is its content): a write that does not
fit appends the bytes that do and returns their number with `io.ErrShortWrite`. -/
def limitedSink (cap : Nat) : Writer (List Byte) := fun content p =>
  if content.length + p.length ≤ cap then ⟨p.length, none, content ++ p⟩
  else ⟨cap - content.length, some Error.shortWrite, content ++ p.take (cap - content.length)⟩

/-! ## Byte utilities of `struct.go` -/

/-- Result of `ReadBytes`: the returned slice (`none` is the Go `nil`), the returned error and
the reader afterwards. -/
structure BytesResult (σ : Type) where
  buf : Option (List Byte)
  err : Option Error
  next : σ

/-- Function `ReadBytes(reader, count)`. -/
def ReadBytes {σ : Type} (reader : Reader σ) (s : σ) (count : Nat) : BytesResult σ :=
  let r := reader s count
  -- result := make([]byte, count); total, err := reader.Read(result)
  let result := (r.data ++ List.replicate count (0 : Byte)).take count
  if r.data.length = count ∧ r.err = none then
    ⟨some result, r.err, r.next⟩
  else
    ⟨none, r.err, r.next⟩

/-- Function `PadBytes(src, desired_size, order)`. -/
def PadBytes (src : List Byte) (desired_size : Nat) (order : ByteOrder) : List Byte :=
  let l : Int := (desired_size : Int) - (src.length : Int)
  if l ≤ 0 then src
  else
    let i := List.replicate l.toNat (0 : Byte)
    if order = ByteOrder.LittleEndian then src ++ i else i ++ src

/-- Conversion `int64(u)` of a `uint64`. -/
def toInt64 (u : Nat) : Int :=
  if u % 2 ^ 64 < 2 ^ 63 then ((u % 2 ^ 64 : Nat) : Int) else ((u % 2 ^ 64 : Nat) : Int) - 2 ^ 64

/-- Conversion `uint64(x)` of an `int64`. -/
def toUint64 (x : Int) : Nat := (x % 2 ^ 64).toNat

/-- Result of `ReadInt` (`val` is the `int64`) and of `ReadUint` (`val` is the `uint64`). -/
structure NumResult (α σ : Type) where
  val : α
  err : Option Error
  next : σ

/-- Function `ReadInt(reader, size, order)`. A nil slice from `ReadBytes` is the empty slice for
`PadBytes`. -/
def ReadInt {σ : Type} (reader : Reader σ) (s : σ) (size : Nat) (order : ByteOrder) :
    NumResult Int σ :=
  let r := ReadBytes reader s size
  match r.err with
  | some e => ⟨0, some e, r.next⟩
  | none => ⟨toInt64 (order.Uint64 (PadBytes (r.buf.getD []) 8 order)), none, r.next⟩

/-- Function `ReadUint(reader, size, order)`. -/
def ReadUint {σ : Type} (reader : Reader σ) (s : σ) (size : Nat) (order : ByteOrder) :
    NumResult Nat σ :=
  let r := ReadBytes reader s size
  match r.err with
  | some e => ⟨0, some e, r.next⟩
  | none => ⟨order.Uint64 (PadBytes (r.buf.getD []) 8 order), none, r.next⟩

/-! ## Values seen through `reflect` -/

/-- The signed integer kinds of `reflect`. -/
inductive IntKind
  | Int | Int8 | Int16 | Int32 | Int64
  deriving DecidableEq

/-- The unsigned integer kinds of `reflect`. -/
inductive UintKind
  | Uint | Uint8 | Uint16 | Uint32 | Uint64 | Uintptr
  deriving DecidableEq

/-- Result of `Type.Size()` for a signed kind, in bytes (`int` has eight bytes on a 64-bit platform). -/
def IntKind.size : IntKind → Nat
  | .Int => 8 | .Int8 => 1 | .Int16 => 2 | .Int32 => 4 | .Int64 => 8

/-- Result of `Type.Size()` for an unsigned kind, in bytes. -/
def UintKind.size : UintKind → Nat
  | .Uint => 8 | .Uint8 => 1 | .Uint16 => 2 | .Uint32 => 4 | .Uint64 => 8 | .Uintptr => 8

/-- A struct field: whether its name is exported, whether it is embedded (anonymous), and
its value. -/
structure Field (α : Type) where
  exported : Bool
  embedded : Bool
  val : α

/-- A Go value as `reflect` presents it. `other` stands for every kind the package has no
case for (bool, float, string, map, ...). -/
inductive Value
  | int (k : IntKind) (n : Int)
  | uint (k : UintKind) (n : Nat)
  | struct (fields : List (Field Value))
  | slice (elems : List Value)
  | array (elems : List Value)
  | ptr (elem : Value)
  | other

/-- Result of `Value.Elem()` on a pointer; other values are left as they are. -/
def Value.Elem : Value → Value
  | .ptr e => e
  | v => v

/-- Result of `Value.CanSet()` for a field of an addressable struct: the field is exported. -/
def CanSet (field : Field Value) : Bool := field.exported

/-- Result of `Value.CanInterface()` for a field: the field is exported. -/
def CanInterface (field : Field Value) : Bool := field.exported

/-- Conversion of an integer to the signed type of `bits` bits (twos complement). -/
def wrapSigned (bits : Nat) (x : Int) : Int :=
  (x + 2 ^ (bits - 1)) % 2 ^ bits - 2 ^ (bits - 1)

/-- Go `reflect.Value.OverflowInt`:
`trunc := (x << (64 - bitSize)) >> (64 - bitSize); return x != trunc` on `int64`. -/
def OverflowInt (k : IntKind) (x : Int) : Bool :=
  let bitSize := k.size * 8
  let trunc := wrapSigned 64 (x * 2 ^ (64 - bitSize)) / 2 ^ (64 - bitSize)
  decide (x ≠ trunc)

/-- Go `reflect.Value.OverflowUint`: the same computation on `uint64`. -/
def OverflowUint (k : UintKind) (x : Nat) : Bool :=
  let bitSize := k.size * 8
  let trunc := (x * 2 ^ (64 - bitSize)) % 2 ^ 64 / 2 ^ (64 - bitSize)
  decide (x ≠ trunc)

/-- Go `reflect.Value.SetInt` on a settable value of kind `k`: stores `intN(x)`. -/
def SetInt (k : IntKind) (x : Int) : Value := .int k (wrapSigned (k.size * 8) x)

/-- Go `reflect.Value.SetUint` on a settable value of kind `k`: stores `uintN(x)`. -/
def SetUint (k : UintKind) (x : Nat) : Value := .uint k (x % 2 ^ (k.size * 8))

/-- How a call ends: it returns a nil error, returns an error, or panics. -/
inductive Outcome
  | ok
  | error (e : Error)
  | panic
  deriving DecidableEq

/-- State after a decoding step: the target as it now stands, the reader, the outcome. -/
structure Step (α σ : Type) where
  target : α
  next : σ
  out : Outcome

/-! ## The decoder of `struct.go`

`ReadStruct` and `ReadArray` call each other; `readFields`/`readField` are the loop of
`ReadStruct` over `v.Field(i)` and its body, `readCells`/`readCell` the loop of `ReadArray`
over `field.Index(idx)` and its body. `settable` says whether the cells can be set: those of
a slice and of an array behind a pointer can, those of an array passed by value cannot. -/

mutual
/-- Function `ReadStruct(reader, dest, order)`; `dest` is the value held by the interface. -/
def ReadStruct {σ : Type} (reader : Reader σ) (s : σ) (dest : Value) (order : ByteOrder) :
    Step Value σ :=
  match dest with
  | .ptr (.struct fields) =>
      let r := readFields reader s fields order
      ⟨.ptr (.struct r.target), r.next, r.out⟩
  | .ptr (.slice elems) => ReadArray reader s (.ptr (.slice elems)) order
  | .ptr (.array elems) => ReadArray reader s (.ptr (.array elems)) order
  | .ptr _ => ⟨dest, s, .error .unsupportedDataType⟩
  | _ => ⟨dest, s, .error .destNotPointer⟩
termination_by 3 * sizeOf dest + 1

/-- The loop `for i := 0; i < v.NumField(); i++` of `ReadStruct`. -/
def readFields {σ : Type} (reader : Reader σ) (s : σ) (fields : List (Field Value))
    (order : ByteOrder) : Step (List (Field Value)) σ :=
  match fields with
  | [] => ⟨[], s, .ok⟩
  | field :: rest =>
      let r := readField reader s field order
      if r.out = .ok then
        let r2 := readFields reader r.next rest order
        ⟨r.target :: r2.target, r2.next, r2.out⟩
      else ⟨r.target :: rest, r.next, r.out⟩
termination_by 3 * sizeOf fields

/-- The body of the loop of `ReadStruct` for one field. -/
def readField {σ : Type} (reader : Reader σ) (s : σ) (field : Field Value)
    (order : ByteOrder) : Step (Field Value) σ :=
  if !CanSet field then ⟨field, s, .error .notSettable⟩
  else if CanInterface field then
    match _hval : field.val with
    | .struct fs =>
        let r := ReadStruct reader s (.ptr (.struct fs)) order
        ⟨{ field with val := r.target.Elem }, r.next, r.out⟩
    | .int k _ =>
        let r := ReadInt reader s k.size order
        match r.err with
        | some e => ⟨field, r.next, .error e⟩
        | none =>
            if OverflowInt k r.val then ⟨field, r.next, .error .overflow⟩
            else ⟨{ field with val := SetInt k r.val }, r.next, .ok⟩
    | .uint k _ =>
        let r := ReadUint reader s k.size order
        match r.err with
        | some e => ⟨field, r.next, .error e⟩
        | none =>
            if OverflowUint k r.val then ⟨field, r.next, .error .overflow⟩
            else ⟨{ field with val := SetUint k r.val }, r.next, .ok⟩
    | .slice es =>
        let r := ReadArray reader s (.ptr (.slice es)) order
        ⟨{ field with val := r.target.Elem }, r.next, r.out⟩
    | .array es =>
        let r := ReadArray reader s (.ptr (.array es)) order
        ⟨{ field with val := r.target.Elem }, r.next, r.out⟩
    | _ => ⟨field, s, .error .fieldNotSupported⟩
  else ⟨field, s, .ok⟩
termination_by 3 * sizeOf field
decreasing_by
  all_goals
    simp_wf
    cases field
    simp_all
    try omega

/-- Function `ReadArray(reader, dest, order)`. -/
def ReadArray {σ : Type} (reader : Reader σ) (s : σ) (dest : Value) (order : ByteOrder) :
    Step Value σ :=
  match dest with
  | .ptr (.slice elems) =>
      let r := readCells reader s true elems order
      ⟨.ptr (.slice r.target), r.next, r.out⟩
  | .ptr (.array elems) =>
      let r := readCells reader s true elems order
      ⟨.ptr (.array r.target), r.next, r.out⟩
  | .slice elems =>
      let r := readCells reader s true elems order
      ⟨.slice r.target, r.next, r.out⟩
  | .array elems =>
      let r := readCells reader s false elems order
      ⟨.array r.target, r.next, r.out⟩
  | _ => ⟨dest, s, .error .datatypeNotSupported⟩
termination_by 3 * sizeOf dest

/-- The loop `for idx := 0; idx < type_len; idx++` of `ReadArray`. -/
def readCells {σ : Type} (reader : Reader σ) (s : σ) (settable : Bool) (cells : List Value)
    (order : ByteOrder) : Step (List Value) σ :=
  match cells with
  | [] => ⟨[], s, .ok⟩
  | cell :: rest =>
      let r := readCell reader s settable cell order
      if r.out = .ok then
        let r2 := readCells reader r.next settable rest order
        ⟨r.target :: r2.target, r2.next, r2.out⟩
      else ⟨r.target :: rest, r.next, r.out⟩
termination_by 3 * sizeOf cells

/-- The body of the loop of `ReadArray` for one cell. `cell.Interface()` hands `ReadStruct`
a copy of the struct, not a pointer to the cell. -/
def readCell {σ : Type} (reader : Reader σ) (s : σ) (settable : Bool) (cell : Value)
    (order : ByteOrder) : Step Value σ :=
  match cell with
  | .int k _ =>
      let r := ReadInt reader s k.size order
      match r.err with
      | some e => ⟨cell, r.next, .error e⟩
      | none =>
          if OverflowInt k r.val then ⟨cell, r.next, .error .overflow⟩
          else if settable then ⟨SetInt k r.val, r.next, .ok⟩
          else ⟨cell, r.next, .panic⟩
  | .uint k _ =>
      let r := ReadUint reader s k.size order
      match r.err with
      | some e => ⟨cell, r.next, .error e⟩
      | none =>
          if OverflowUint k r.val then ⟨cell, r.next, .error .overflow⟩
          else if settable then ⟨SetUint k r.val, r.next, .ok⟩
          else ⟨cell, r.next, .panic⟩
  | .struct fs =>
      let r := ReadStruct reader s (.struct fs) order
      ⟨cell, r.next, r.out⟩
  | _ => ⟨cell, s, .error .arrayNotSupported⟩
termination_by 3 * sizeOf cell + 2
end

/-! ## The encoder of `write_struct.go` -/

/-- Result of `Write`: the returned count, the sink afterwards, the outcome. -/
structure Written (τ : Type) where
  n : Nat
  next : τ
  out : Outcome

/-- The statement `return dest.Write(buf)`. -/
def sinkWrite {τ : Type} (dest : Writer τ) (t : τ) (buf : List Byte) : Written τ :=
  let r := dest t buf
  ⟨r.n, r.next, match r.err with | none => .ok | some e => .error e⟩

/-- A `reflect.Value` handed over as an `interface{}`: for `reflect.ValueOf` it is a struct,
the one with the fields `typ_`, `ptr` and the embedded `flag` of package `reflect`, none of
them exported. What the fields hold is never looked at. -/
def reflectValue (_described : Value) : Value :=
  .struct [⟨false, false, .ptr .other⟩, ⟨false, false, .other⟩, ⟨false, true, .uint .Uintptr 0⟩]

mutual
/-- Number of exported struct fields anywhere inside a value (termination measure). -/
def Value.exportedCount : Value → Nat
  | .struct fs => exportedCountFields fs
  | .slice es => exportedCountList es
  | .array es => exportedCountList es
  | .ptr e => e.exportedCount
  | _ => 0
/-- Number of exported struct fields inside a list of fields. -/
def exportedCountFields : List (Field Value) → Nat
  | [] => 0
  | ⟨e, _, v⟩ :: rest => (if e then 1 else 0) + v.exportedCount + exportedCountFields rest
/-- Number of exported struct fields inside a list of values. -/
def exportedCountList : List Value → Nat
  | [] => 0
  | v :: rest => v.exportedCount + exportedCountList rest
end

mutual
/-- Function `Write(dest, src, order)`; `src` is the value held by the interface. In the struct case
the call is `Write(dest, field, order)` with the `reflect.Value` itself. -/
def Write {τ : Type} (dest : Writer τ) (t : τ) (src : Value) (order : ByteOrder) : Written τ :=
  match h : src.Elem with
  | .int .Int n | .int .Int32 n => sinkWrite dest t (order.PutUint32 (n % 2 ^ 32).toNat)
  | .uint .Uint32 n | .uint .Uintptr n => sinkWrite dest t (order.PutUint32 (n % 2 ^ 32))
  | .int .Int16 n => sinkWrite dest t (order.PutUint16 (n % 2 ^ 16).toNat)
  | .uint .Uint16 n => sinkWrite dest t (order.PutUint16 (n % 2 ^ 16))
  | .uint .Uint64 n => sinkWrite dest t (order.PutUint64 n)
  | .int .Int64 n => sinkWrite dest t (order.PutUint64 (toUint64 n))
  -- `v.Uint()` panics on a value of kind Int8
  | .int .Int8 _ => ⟨0, t, .panic⟩
  | .uint .Uint8 n => sinkWrite dest t [byte n]
  | .struct fields => writeFields dest t fields order 0
  | .slice elems => writeElems dest t elems order 0
  | .array elems => writeElems dest t elems order 0
  | _ => ⟨0, t, .error .writeNotSupported⟩
termination_by 2 * (100 * src.exportedCount + sizeOf src) + 1
decreasing_by
  all_goals
    simp_wf
    cases src <;> simp_all [Value.Elem, Value.exportedCount]
    all_goals omega

/-- The loop over `v.Field(i)` of `Write`, with the running count `w`. -/
def writeFields {τ : Type} (dest : Writer τ) (t : τ) (fields : List (Field Value))
    (order : ByteOrder) (w : Nat) : Written τ :=
  match fields with
  | [] => ⟨w, t, .ok⟩
  | field :: rest =>
      if CanInterface field then
        let r := Write dest t (reflectValue field.val) order
        if r.out = .ok then writeFields dest r.next rest order (w + r.n)
        else ⟨w, r.next, r.out⟩
      else writeFields dest t rest order w
termination_by 2 * (100 * exportedCountFields fields + sizeOf fields)
decreasing_by
  all_goals
    simp_wf
    cases field
    simp_all [CanInterface, exportedCountFields, reflectValue, Value.exportedCount]
    try omega

/-- The loop over `v.Index(i)` of `Write`, with the running count `w`. -/
def writeElems {τ : Type} (dest : Writer τ) (t : τ) (elems : List Value)
    (order : ByteOrder) (w : Nat) : Written τ :=
  match elems with
  | [] => ⟨w, t, .ok⟩
  | elem :: rest =>
      let r := Write dest t elem order
      if r.out = .ok then writeElems dest r.next rest order (w + r.n)
      else ⟨w, r.next, r.out⟩
termination_by 2 * (100 * exportedCountList elems + sizeOf elems)
decreasing_by
  all_goals
    simp_wf
    simp [exportedCountList]
    try omega
end

/-! ## Definitions used to state the properties -/

/-- The unsigned number a byte string denotes in a byte order: most significant byte first
for big-endian, least significant byte first for little-endian. -/
def ByteOrder.value (order : ByteOrder) (b : List Byte) : Nat :=
  match order with
  | .BigEndian => b.foldl (fun acc x => acc * 256 + x.val) 0
  | .LittleEndian => b.foldr (fun x acc => x.val + 256 * acc) 0

/-- Least value of a signed kind of width `W` bytes: `-(2^(8W-1))`. -/
def IntKind.minValue (k : IntKind) : ℤ := -(2 ^ (8 * k.size - 1))

/-- Greatest value of a signed kind of width `W` bytes: `2^(8W-1) - 1`. -/
def IntKind.maxValue (k : IntKind) : ℤ := 2 ^ (8 * k.size - 1) - 1

/-- Greatest value of an unsigned kind of width `W` bytes: `2^(8W) - 1`. -/
def UintKind.maxValue (k : UintKind) : Nat := 2 ^ (8 * k.size) - 1

/-- The 16 bytes `buffer01` of `struct_read_test.go`. -/
def buffer01 : List Byte :=
  [0x00, 0x01, 0x02, 0x03, 0x04, 0x05, 0x06, 0x07, 0x08, 0x09, 0x0A, 0x0B, 0x0C, 0x0D, 0x0E, 0x0F]

/-- A value of the test type `uintstruct01` (fields `Val_16`, `Val_8`, `Val_32`, `Val_64`,
`Pad`). -/
def uintstruct01 (val_16 val_8 val_32 val_64 pad : Nat) : Value :=
  .struct [⟨true, false, .uint .Uint16 val_16⟩, ⟨true, false, .uint .Uint8 val_8⟩,
    ⟨true, false, .uint .Uint32 val_32⟩, ⟨true, false, .uint .Uint64 val_64⟩,
    ⟨true, false, .uint .Uint8 pad⟩]

/-- The field list with every exported nested composite, named or embedded, replaced by its
own fields inline, at every depth. -/
def flattenFields : List (Field Value) → List (Field Value)
  | [] => []
  | ⟨true, _, .struct inner⟩ :: rest => flattenFields inner ++ flattenFields rest
  | field :: rest => field :: flattenFields rest

/-- The fields of the composite behind a pointer. -/
def structFields : Value → List (Field Value)
  | .ptr (.struct fields) => fields
  | _ => []

/-- The scalar values in the range of their kind, for the kinds uint8, uint16, uint32,
uint64 and int64, and the int16 and int32 values that are not negative. -/
def Value.plain : Value → Bool
  | .uint .Uint8 n => decide (n < 2 ^ 8)
  | .uint .Uint16 n => decide (n < 2 ^ 16)
  | .uint .Uint32 n => decide (n < 2 ^ 32)
  | .uint .Uint64 n => decide (n < 2 ^ 64)
  | .int .Int16 n => decide (0 ≤ n ∧ n < 2 ^ 15)
  | .int .Int32 n => decide (0 ≤ n ∧ n < 2 ^ 31)
  | .int .Int64 n => decide (-(2 ^ 63) ≤ n ∧ n < 2 ^ 63)
  | _ => false

/-- Two scalars of the same kind. -/
def Value.sameKind : Value → Value → Bool
  | .uint k _, .uint k2 _ => decide (k = k2)
  | .int k _, .int k2 _ => decide (k = k2)
  | _, _ => false

/-- A fixed sequence (array) or a variable one (slice) with the given elements. -/
def Value.seq (fixed : Bool) (elems : List Value) : Value :=
  if fixed then .array elems else .slice elems

/-- The bytes that make up the buffer `Write` builds for one scalar of a kind in
`Value.plain`. -/
def scalarBytes (order : ByteOrder) : Value → List Byte
  | .uint .Uint8 n => [byte n]
  | .uint .Uint16 n => order.PutUint16 (n % 2 ^ 16)
  | .uint .Uint32 n => order.PutUint32 (n % 2 ^ 32)
  | .uint .Uint64 n => order.PutUint64 n
  | .int .Int16 n => order.PutUint16 (n % 2 ^ 16).toNat
  | .int .Int32 n => order.PutUint32 (n % 2 ^ 32).toNat
  | .int .Int64 n => order.PutUint64 (toUint64 n)
  | _ => []

mutual
/-- Sum of the byte widths of the scalar leaves of a value; a sequence counts the elements
it holds. -/
def Value.width : Value → Nat
  | .int k _ => k.size
  | .uint k _ => k.size
  | .struct fs => widthFields fs
  | .slice es => widthList es
  | .array es => widthList es
  | _ => 0
/-- Sum of the byte widths of the scalar leaves of a field list. -/
def widthFields : List (Field Value) → Nat
  | [] => 0
  | ⟨_, _, v⟩ :: rest => v.width + widthFields rest
/-- Sum of the byte widths of the scalar leaves of a list of values. -/
def widthList : List Value → Nat
  | [] => 0
  | v :: rest => v.width + widthList rest
end

mutual
/-- The leaves of a value in the order of the walk: composites and sequences are replaced by
the leaves of their parts, every other value is one leaf. -/
def Value.leaves : Value → List Value
  | .struct fs => leavesFields fs
  | .slice es => leavesList es
  | .array es => leavesList es
  | .int k n => [.int k n]
  | .uint k n => [.uint k n]
  | .ptr e => [.ptr e]
  | .other => [.other]
/-- The leaves of a field list in the order of the walk. -/
def leavesFields : List (Field Value) → List Value
  | [] => []
  | ⟨_, _, v⟩ :: rest => v.leaves ++ leavesFields rest
/-- The leaves of a list of values in the order of the walk. -/
def leavesList : List Value → List Value
  | [] => []
  | v :: rest => v.leaves ++ leavesList rest
end

/-- A slice of bytes as a value: its elements are uint8 scalars. -/
def byteSlice (s : List Byte) : Value := .slice (s.map fun b => .uint .Uint8 b.val)

/-- A sequence of scalars of one unsigned kind. -/
def uintSeq (fixed : Bool) (k : UintKind) (vals : List Nat) : Value :=
  Value.seq fixed (vals.map fun n => .uint k n)

/-- The element kind of a sequence of scalars. -/
inductive ScalarKind
  | signed (k : IntKind)
  | unsigned (k : UintKind)
  deriving DecidableEq

/-- The scalar of the given kind holding `n`. -/
def ScalarKind.scalar (kind : ScalarKind) (n : ℤ) : Value :=
  match kind with
  | .signed k => .int k n
  | .unsigned k => .uint k n.toNat

/-- A sequence of scalars that all have the one element kind `kind`, as a Go slice or array
has. -/
def scalarSeq (fixed : Bool) (kind : ScalarKind) (vals : List ℤ) : Value :=
  Value.seq fixed (vals.map kind.scalar)

/-- The values of an element kind for which the round trip is stated: every value of uint8,
uint16, uint32, uint64 and int64, and the values of int16 and int32 that are not negative. -/
def ScalarKind.roundTrips (kind : ScalarKind) (n : ℤ) : Bool :=
  match kind with
  | .unsigned .Uint8 => decide (0 ≤ n ∧ n < 2 ^ 8)
  | .unsigned .Uint16 => decide (0 ≤ n ∧ n < 2 ^ 16)
  | .unsigned .Uint32 => decide (0 ≤ n ∧ n < 2 ^ 32)
  | .unsigned .Uint64 => decide (0 ≤ n ∧ n < 2 ^ 64)
  | .signed .Int16 => decide (0 ≤ n ∧ n < 2 ^ 15)
  | .signed .Int32 => decide (0 ≤ n ∧ n < 2 ^ 31)
  | .signed .Int64 => decide (-(2 ^ 63) ≤ n ∧ n < 2 ^ 63)
  | _ => false

/-- One step of the flattened walk of a target: a scalar leaf that the decoder reads and
sets, or a place where the decoder stops with an error before it reads anything, together
with the leaves that lie beneath that place. -/
inductive WalkStep
  | leaf (cell : Value)
  | stop (e : Error) (kept : List Value)

/-- The leaves a step of the walk stands for. -/
def WalkStep.leaves : WalkStep → List Value
  | .leaf cell => [cell]
  | .stop _ kept => kept

/-- The leaves of a list of steps, in order. -/
def stepLeaves (steps : List WalkStep) : List Value := steps.flatMap WalkStep.leaves

/-- The step for one cell of a sequence: a scalar is a leaf, a struct cell stops the walk
with `dest must be a pointer`, any other cell with `datatype for array ... is not
supported`. -/
def walkCell : Value → WalkStep
  | .int k n => .leaf (.int k n)
  | .uint k n => .leaf (.uint k n)
  | .struct fs => .stop .destNotPointer (Value.struct fs).leaves
  | v => .stop .arrayNotSupported v.leaves

/-- The steps for the cells of a sequence. -/
def walkCells (cells : List Value) : List WalkStep := cells.map walkCell

/-- The steps for a field that is not an exported nested composite: an unexported field
stops the walk with `not settable`, a scalar is a leaf, a sequence gives the steps of its
cells, any other field stops the walk with `datatype for field ... is not supported`. -/
def walkFlatField (field : Field Value) : List WalkStep :=
  if !field.exported then [.stop .notSettable field.val.leaves]
  else
    match field.val with
    | .int k n => [.leaf (.int k n)]
    | .uint k n => [.leaf (.uint k n)]
    | .slice es => walkCells es
    | .array es => walkCells es
    | v => [.stop .fieldNotSupported v.leaves]

/-- The flattened walk of a field list: an exported nested composite is replaced by the walk
of its fields. -/
def walkFields : List (Field Value) → List WalkStep
  | [] => []
  | ⟨true, _, .struct inner⟩ :: rest => walkFields inner ++ walkFields rest
  | field :: rest => walkFlatField field ++ walkFields rest

/-- The flattened walk of the target behind the pointer handed to `ReadStruct`. -/
def Value.walk : Value → List WalkStep
  | .struct fs => walkFields fs
  | .slice es => walkCells es
  | .array es => walkCells es
  | v => [.stop .unsupportedDataType v.leaves]

/-- Step `st` fails when the reader is in state `s`: a leaf fails when its read or its
overflow check does, with that outcome and the reader as the read left it; a stop fails with
its error and leaves the reader alone. -/
def WalkStep.failsWith {σ : Type} (reader : Reader σ) (order : ByteOrder) (s : σ)
    (st : WalkStep) (out : Outcome) (next : σ) : Prop :=
  match st with
  | .leaf cell =>
      (readCell reader s true cell order).out ≠ .ok
        ∧ out = (readCell reader s true cell order).out
        ∧ next = (readCell reader s true cell order).next
  | .stop e _ => out = .error e ∧ next = s

/-- How a decoding run relates to the steps of a walk, starting with the reader in state
`s` and ending with the leaves `after`, the outcome `out` and the reader in state `next`.
When the run succeeds, every step is a leaf and `after` is what decoding these leaves one
after the other gives. When it does not, the steps split into leaves `done`, a step
`failing` and steps `later`: decoding `done` one after the other succeeds, `failing` fails
in the reader state this leaves, with the outcome and the reader state of the run, and
`after` is the decoded `done` followed by the leaves of `failing` and of `later` as they
were. -/
def WalkedTo {σ : Type} (reader : Reader σ) (order : ByteOrder) (s : σ)
    (steps : List WalkStep) (after : List Value) (out : Outcome) (next : σ) : Prop :=
  (out = .ok → ∃ cells, steps = cells.map WalkStep.leaf
      ∧ readCells reader s true cells order = ⟨after, next, .ok⟩)
  ∧ (out ≠ .ok → ∃ (done : List Value) (failing : WalkStep) (later : List WalkStep),
      steps = done.map WalkStep.leaf ++ failing :: later
      ∧ (readCells reader s true done order).out = .ok
      ∧ failing.failsWith reader order (readCells reader s true done order).next out next
      ∧ after = (readCells reader s true done order).target ++ failing.leaves
          ++ stepLeaves later)

/-- A struct with a uint8, an int8 and a uint8 field, all exported and zero. -/
def uint8Int8Uint8 : Value :=
  .struct [⟨true, false, .uint .Uint8 0⟩, ⟨true, false, .int .Int8 0⟩,
    ⟨true, false, .uint .Uint8 0⟩]

/-! ## Byte strings and the 64-bit read path -/

theorem value_lt (order : ByteOrder) (b : List Byte) : order.value b < 256 ^ b.length := by
  cases order
  · simp only [ByteOrder.value]
    suffices h : ∀ (l : List Byte) (a k : Nat), a < 256 ^ k →
        l.foldl (fun acc x => acc * 256 + x.val) a < 256 ^ (k + l.length) by
      simpa using h b 0 0 (by simp)
    intro l
    induction l with
    | nil => intro a k h; simpa using h
    | cons x t ih =>
        intro a k h
        have hx := x.isLt
        have := ih (a * 256 + x.val) (k + 1) (by rw [pow_succ]; omega)
        simpa [List.length_cons, Nat.add_assoc, Nat.add_comm 1] using this
  · simp only [ByteOrder.value]
    induction b with
    | nil => simp
    | cons x t ih =>
        have hx := x.isLt
        simp only [List.foldr_cons, List.length_cons, pow_succ]
        omega

theorem Uint64_PadBytes_eq_value (order : ByteOrder) (b : List Byte) (h : b.length ≤ 8) :
    order.Uint64 (PadBytes b 8 order) = order.value b := by
  rcases b with _ | ⟨b0, _ | ⟨b1, _ | ⟨b2, _ | ⟨b3, _ | ⟨b4, _ | ⟨b5, _ | ⟨b6, _ | ⟨b7, _ | ⟨b8, t⟩⟩⟩⟩⟩⟩⟩⟩⟩
  all_goals cases order
  all_goals first
    | (simp at h; done)
    | (simp [PadBytes, ByteOrder.Uint64, byteAt, ByteOrder.value, List.replicate]; try omega)

theorem Uint64_lt (order : ByteOrder) (b : List Byte) : order.Uint64 b < 2 ^ 64 := by
  have h (i : Nat) : byteAt b i < 256 := (b.getD i 0).isLt
  have h0 := h 0; have h1 := h 1; have h2 := h 2; have h3 := h 3
  have h4 := h 4; have h5 := h 5; have h6 := h 6; have h7 := h 7
  cases order <;> simp only [ByteOrder.Uint64] <;> omega

theorem toInt64_bounds (u : Nat) : -(2 ^ 63 : ℤ) ≤ toInt64 u ∧ toInt64 u < 2 ^ 63 := by
  unfold toInt64
  have h := Nat.mod_lt u (show 0 < 2 ^ 64 by norm_num)
  split <;> constructor <;> omega

theorem value_byte (order : ByteOrder) (n : Nat) : order.value [byte n] = n % 2 ^ 8 := by
  cases order <;> simp [ByteOrder.value, byte]

theorem value_PutUint16 (order : ByteOrder) (v : Nat) :
    order.value (order.PutUint16 v) = v % 2 ^ 16 := by
  cases order <;> simp [ByteOrder.value, ByteOrder.PutUint16, byte] <;> omega

theorem value_PutUint32 (order : ByteOrder) (v : Nat) :
    order.value (order.PutUint32 v) = v % 2 ^ 32 := by
  cases order <;> simp [ByteOrder.value, ByteOrder.PutUint32, byte] <;> omega

theorem value_PutUint64 (order : ByteOrder) (v : Nat) :
    order.value (order.PutUint64 v) = v % 2 ^ 64 := by
  cases order <;> simp [ByteOrder.value, ByteOrder.PutUint64, byte] <;> omega

theorem length_PutUint16 (order : ByteOrder) (v : Nat) : (order.PutUint16 v).length = 2 := by
  cases order <;> rfl

theorem length_PutUint32 (order : ByteOrder) (v : Nat) : (order.PutUint32 v).length = 4 := by
  cases order <;> rfl

theorem length_PutUint64 (order : ByteOrder) (v : Nat) : (order.PutUint64 v).length = 8 := by
  cases order <;> rfl

/-! ## The overflow check of `reflect` -/

theorem OverflowInt_eq_false_iff (k : IntKind) (x : ℤ)
    (hlo : -(2 ^ 63 : ℤ) ≤ x) (hhi : x < 2 ^ 63) :
    OverflowInt k x = false ↔ (k.minValue ≤ x ∧ x ≤ k.maxValue) := by
  cases k <;>
    simp [OverflowInt, wrapSigned, IntKind.size, IntKind.minValue, IntKind.maxValue] <;>
    omega

theorem SetInt_of_inRange (k : IntKind) (x : ℤ) (h : k.minValue ≤ x ∧ x ≤ k.maxValue) :
    SetInt k x = .int k x := by
  cases k <;>
    simp [SetInt, wrapSigned, IntKind.size, IntKind.minValue, IntKind.maxValue] at h ⊢ <;>
    omega

theorem OverflowUint_eq_false_iff (k : UintKind) (x : Nat) (hx : x < 2 ^ 64) :
    OverflowUint k x = false ↔ x ≤ k.maxValue := by
  cases k <;>
    simp [OverflowUint, UintKind.size, UintKind.maxValue] <;>
    omega

theorem SetUint_of_inRange (k : UintKind) (x : Nat) (h : x ≤ k.maxValue) :
    SetUint k x = .uint k x := by
  cases k <;>
    simp [SetUint, UintKind.size, UintKind.maxValue] at h ⊢ <;>
    omega

theorem uintKind_size_le_eight (k : UintKind) : k.size ≤ 8 := by cases k <;> decide

theorem intKind_size_le_eight (k : IntKind) : k.size ≤ 8 := by cases k <;> decide

theorem ReadInt_val_bounds {σ : Type} (reader : Reader σ) (s : σ) (size : Nat)
    (order : ByteOrder) :
    -(2 ^ 63 : ℤ) ≤ (ReadInt reader s size order).val
      ∧ (ReadInt reader s size order).val < 2 ^ 63 := by
  simp only [ReadInt]
  cases (ReadBytes reader s size).err with
  | some e => simp
  | none => exact toInt64_bounds _

theorem ReadUint_val_lt {σ : Type} (reader : Reader σ) (s : σ) (size : Nat)
    (order : ByteOrder) : (ReadUint reader s size order).val < 2 ^ 64 := by
  simp only [ReadUint]
  cases (ReadBytes reader s size).err with
  | some e => simp
  | none => exact Uint64_lt _ _

/-! ## Reading from a `bytes.Buffer` -/

theorem ReadBytes_bytesBuffer (buf : List Byte) (count : Nat) (h : count ≤ buf.length) :
    ReadBytes bytesBuffer buf count = ⟨some (buf.take count), none, buf.drop count⟩ := by
  cases buf with
  | nil =>
      have : count = 0 := by simpa using h
      subst this
      simp [ReadBytes, bytesBuffer]
  | cons x t =>
      have hl : (List.take count (x :: t)).length = count := by
        simpa using h
      simp [ReadBytes, bytesBuffer, hl]

theorem ReadUint_bytesBuffer (buf : List Byte) (count : Nat) (order : ByteOrder)
    (h : count ≤ buf.length) (h8 : count ≤ 8) :
    ReadUint bytesBuffer buf count order
      = ⟨order.value (buf.take count), none, buf.drop count⟩ := by
  have hl : (buf.take count).length ≤ 8 := by simp; omega
  simp [ReadUint, ReadBytes_bytesBuffer buf count h, Uint64_PadBytes_eq_value order _ hl]

theorem ReadInt_bytesBuffer (buf : List Byte) (count : Nat) (order : ByteOrder)
    (h : count ≤ buf.length) (h8 : count ≤ 8) :
    ReadInt bytesBuffer buf count order
      = ⟨toInt64 (order.value (buf.take count)), none, buf.drop count⟩ := by
  have hl : (buf.take count).length ≤ 8 := by simp; omega
  simp [ReadInt, ReadBytes_bytesBuffer buf count h, Uint64_PadBytes_eq_value order _ hl]

theorem value_take_le_maxValue (order : ByteOrder) (buf : List Byte) (k : UintKind)
    (h : k.size ≤ buf.length) : order.value (buf.take k.size) ≤ k.maxValue := by
  have h1 := value_lt order (buf.take k.size)
  have h2 : (buf.take k.size).length = k.size := by simpa using h
  rw [h2] at h1
  have h3 : (256 : Nat) ^ k.size = 2 ^ (8 * k.size) := by
    rw [pow_mul]; norm_num
  simp only [UintKind.maxValue]
  omega

theorem readField_uint_bytesBuffer (buf : List Byte) (order : ByteOrder) (embedded : Bool)
    (k : UintKind) (old : Nat) (h : k.size ≤ buf.length) :
    readField bytesBuffer buf ⟨true, embedded, .uint k old⟩ order
      = ⟨⟨true, embedded, .uint k (order.value (buf.take k.size))⟩, buf.drop k.size, .ok⟩ := by
  have hm := value_take_le_maxValue order buf k h
  have hlt : order.value (buf.take k.size) < 2 ^ 64 := by
    have := ReadUint_val_lt bytesBuffer buf k.size order
    rwa [ReadUint_bytesBuffer buf k.size order h (uintKind_size_le_eight k)] at this
  simp [readField, CanSet, CanInterface, ReadUint_bytesBuffer buf k.size order h (uintKind_size_le_eight k),
    (OverflowUint_eq_false_iff k _ hlt).2 hm, SetUint_of_inRange k _ hm]

theorem readCell_uint_bytesBuffer (buf : List Byte) (order : ByteOrder)
    (k : UintKind) (old : Nat) (h : k.size ≤ buf.length) :
    readCell bytesBuffer buf true (.uint k old) order
      = ⟨.uint k (order.value (buf.take k.size)), buf.drop k.size, .ok⟩ := by
  have hm := value_take_le_maxValue order buf k h
  have hlt : order.value (buf.take k.size) < 2 ^ 64 := by
    have := ReadUint_val_lt bytesBuffer buf k.size order
    rwa [ReadUint_bytesBuffer buf k.size order h (uintKind_size_le_eight k)] at this
  simp [readCell, ReadUint_bytesBuffer buf k.size order h (uintKind_size_le_eight k),
    (OverflowUint_eq_false_iff k _ hlt).2 hm, SetUint_of_inRange k _ hm]

/-! ## Writing scalars to a `bytes.Buffer` and reading them back -/

theorem toInt64_toUint64 (n : ℤ) (h : -(2 ^ 63 : ℤ) ≤ n ∧ n < 2 ^ 63) :
    toInt64 (toUint64 n % 2 ^ 64) = n := by
  unfold toInt64 toUint64
  have h1 : ((n % 2 ^ 64).toNat : ℤ) = n % 2 ^ 64 := Int.toNat_of_nonneg (by omega)
  split <;> omega

theorem Write_plain (order : ByteOrder) (t : List Byte) (e : Value) (h : e.plain = true) :
    Write bufferSink t e order
      = ⟨(scalarBytes order e).length, t ++ scalarBytes order e, .ok⟩ := by
  cases e with
  | uint k n =>
      cases k <;>
        simp_all [Value.plain, Write, Value.Elem, sinkWrite, bufferSink, scalarBytes]
  | int k n =>
      cases k <;>
        simp_all [Value.plain, Write, Value.Elem, sinkWrite, bufferSink, scalarBytes]
  | _ => simp [Value.plain] at h

theorem writeElems_plain (order : ByteOrder) (elems : List Value)
    (h : ∀ e ∈ elems, e.plain = true) : ∀ (t : List Byte) (w : Nat),
    writeElems bufferSink t elems order w
      = ⟨w + (elems.flatMap (scalarBytes order)).length,
          t ++ elems.flatMap (scalarBytes order), .ok⟩ := by
  induction elems with
  | nil => intro t w; simp [writeElems]
  | cons e rest ih =>
      intro t w
      have he := h e (by simp)
      have hr : ∀ x ∈ rest, x.plain = true := fun x hx => h x (by simp [hx])
      simp [writeElems, Write_plain order t e he, ih hr, Nat.add_assoc]

theorem readCell_uint_of_bytes (order : ByteOrder) (bs rest : List Byte) (k : UintKind)
    (old : Nat) (h : bs.length = k.size) :
    readCell bytesBuffer (bs ++ rest) true (.uint k old) order
      = ⟨.uint k (order.value bs), rest, .ok⟩ := by
  have := readCell_uint_bytesBuffer (bs ++ rest) order k old (by simp; omega)
  rw [← h, List.take_left, List.drop_left] at this
  exact this

theorem readCell_int_of_bytes (order : ByteOrder) (bs rest : List Byte) (k : IntKind)
    (old : ℤ) (h : bs.length = k.size)
    (hr : k.minValue ≤ toInt64 (order.value bs) ∧ toInt64 (order.value bs) ≤ k.maxValue) :
    readCell bytesBuffer (bs ++ rest) true (.int k old) order
      = ⟨.int k (toInt64 (order.value bs)), rest, .ok⟩ := by
  have hb := toInt64_bounds (order.value bs)
  have e := ReadInt_bytesBuffer (bs ++ rest) k.size order (by simp; omega) (intKind_size_le_eight k)
  rw [← h, List.take_left, List.drop_left] at e
  rw [h] at e
  simp [readCell, e, (OverflowInt_eq_false_iff k _ hb.1 hb.2).2 hr, SetInt_of_inRange k _ hr]

theorem readCell_plain (order : ByteOrder) (rest : List Byte) (c e : Value)
    (hp : e.plain = true) (hk : c.sameKind e = true) :
    readCell bytesBuffer (scalarBytes order e ++ rest) true c order = ⟨e, rest, .ok⟩ := by
  cases e with
  | uint k n =>
      cases c with
      | uint k2 old =>
          have hkk : k2 = k := by simpa [Value.sameKind] using hk
          subst hkk
          cases k2
          case Uint8 =>
            have hn : n < 2 ^ 8 := by simpa [Value.plain] using hp
            rw [scalarBytes, readCell_uint_of_bytes order [byte n] rest .Uint8 old rfl, value_byte,
              Nat.mod_eq_of_lt hn]
          case Uint16 =>
            have hn : n < 2 ^ 16 := by simpa [Value.plain] using hp
            rw [scalarBytes, readCell_uint_of_bytes order _ rest .Uint16 old (length_PutUint16 _ _),
              value_PutUint16, Nat.mod_mod, Nat.mod_eq_of_lt hn]
          case Uint32 =>
            have hn : n < 2 ^ 32 := by simpa [Value.plain] using hp
            rw [scalarBytes, readCell_uint_of_bytes order _ rest .Uint32 old (length_PutUint32 _ _),
              value_PutUint32, Nat.mod_mod, Nat.mod_eq_of_lt hn]
          case Uint64 =>
            have hn : n < 2 ^ 64 := by simpa [Value.plain] using hp
            rw [scalarBytes, readCell_uint_of_bytes order _ rest .Uint64 old (length_PutUint64 _ _),
              value_PutUint64, Nat.mod_eq_of_lt hn]
          all_goals simp [Value.plain] at hp
      | _ => simp [Value.sameKind] at hk
  | int k n =>
      cases c with
      | int k2 old =>
          have hkk : k2 = k := by simpa [Value.sameKind] using hk
          subst hkk
          cases k2
          case Int16 =>
            have hn : 0 ≤ n ∧ n < 2 ^ 15 := by simpa [Value.plain] using hp
            have hv : toInt64 (order.value (order.PutUint16 (n % 2 ^ 16).toNat)) = n := by
              rw [value_PutUint16]; unfold toInt64; omega
            rw [scalarBytes, readCell_int_of_bytes order _ rest .Int16 old (length_PutUint16 _ _)
              (by rw [hv]; simp [IntKind.minValue, IntKind.maxValue, IntKind.size]; omega), hv]
          case Int32 =>
            have hn : 0 ≤ n ∧ n < 2 ^ 31 := by simpa [Value.plain] using hp
            have hv : toInt64 (order.value (order.PutUint32 (n % 2 ^ 32).toNat)) = n := by
              rw [value_PutUint32]; unfold toInt64; omega
            rw [scalarBytes, readCell_int_of_bytes order _ rest .Int32 old (length_PutUint32 _ _)
              (by rw [hv]; simp [IntKind.minValue, IntKind.maxValue, IntKind.size]; omega), hv]
          case Int64 =>
            have hn : -(2 ^ 63 : ℤ) ≤ n ∧ n < 2 ^ 63 := by simpa [Value.plain] using hp
            have hv : toInt64 (order.value (order.PutUint64 (toUint64 n))) = n := by
              rw [value_PutUint64]; exact toInt64_toUint64 n hn
            rw [scalarBytes, readCell_int_of_bytes order _ rest .Int64 old (length_PutUint64 _ _)
              (by rw [hv]; simp [IntKind.minValue, IntKind.maxValue, IntKind.size]; omega), hv]
          all_goals simp [Value.plain] at hp
      | _ => simp [Value.sameKind] at hk
  | _ => simp [Value.plain] at hp

theorem readCells_plain (order : ByteOrder) (rest : List Byte) (elems : List Value) :
    ∀ (tgt : List Value), List.Forall₂ (fun c e => c.sameKind e = true) tgt elems →
    (∀ e ∈ elems, e.plain = true) →
    readCells bytesBuffer (elems.flatMap (scalarBytes order) ++ rest) true tgt order
      = ⟨elems, rest, .ok⟩ := by
  induction elems with
  | nil =>
      intro tgt hs _
      cases hs
      simp [readCells]
  | cons e es ih =>
      intro tgt hs hp
      cases hs with
      | cons hce hrest =>
          have he := hp e (by simp)
          have hr : ∀ x ∈ es, x.plain = true := fun x hx => hp x (by simp [hx])
          simp [readCells, List.append_assoc, readCell_plain order _ _ e he hce, ih _ hrest hr]

/-! ## Field lists and flattening -/

theorem readFields_append {σ : Type} (reader : Reader σ) (order : ByteOrder)
    (xs ys : List (Field Value)) (s : σ) :
    readFields reader s (xs ++ ys) order
      = (if (readFields reader s xs order).out = .ok then
          ⟨(readFields reader s xs order).target
              ++ (readFields reader (readFields reader s xs order).next ys order).target,
            (readFields reader (readFields reader s xs order).next ys order).next,
            (readFields reader (readFields reader s xs order).next ys order).out⟩
        else
          ⟨(readFields reader s xs order).target ++ ys, (readFields reader s xs order).next,
            (readFields reader s xs order).out⟩) := by
  induction xs generalizing s with
  | nil => simp [readFields]
  | cons x t ih =>
      simp only [List.cons_append, readFields]
      by_cases h : (readField reader s x order).out = .ok
      · simp only [h, if_true, ih]
        by_cases h2 : (readFields reader (readField reader s x order).next t order).out = .ok
        · simp [h2]
        · simp [h2]
      · simp [h]

theorem readField_target_not_struct {σ : Type} (reader : Reader σ) (s : σ) (order : ByteOrder)
    (field : Field Value)
    (h : ∀ (embedded : Bool) (inner : List (Field Value)),
      field = ⟨true, embedded, .struct inner⟩ → False)
    (embedded : Bool) (inner : List (Field Value)) :
    (readField reader s field order).target = ⟨true, embedded, .struct inner⟩ → False := by
  obtain ⟨exported, emb, val⟩ := field
  cases exported with
  | false => simp [readField, CanSet]
  | true =>
      cases val with
      | struct fs => exact absurd rfl (fun e => h emb fs e)
      | int k n =>
          simp only [readField, CanSet, CanInterface]
          cases (ReadInt reader s k.size order).err with
          | some e => simp
          | none =>
              cases OverflowInt k (ReadInt reader s k.size order).val <;> simp [SetInt]
      | uint k n =>
          simp only [readField, CanSet, CanInterface]
          cases (ReadUint reader s k.size order).err with
          | some e => simp
          | none =>
              cases OverflowUint k (ReadUint reader s k.size order).val <;> simp [SetUint]
      | slice es => simp [readField, CanSet, CanInterface, ReadArray, Value.Elem]
      | array es => simp [readField, CanSet, CanInterface, ReadArray, Value.Elem]
      | ptr e => simp [readField, CanSet, CanInterface]
      | other => simp [readField, CanSet, CanInterface]

theorem flattenFields_cons_of_not_struct (field : Field Value) (rest : List (Field Value))
    (h : ∀ (embedded : Bool) (inner : List (Field Value)),
      field = ⟨true, embedded, .struct inner⟩ → False) :
    flattenFields (field :: rest) = field :: flattenFields rest := by
  rw [flattenFields]
  intro embedded inner hf
  exact h embedded inner hf

theorem readFields_flattenFields {σ : Type} (reader : Reader σ) (order : ByteOrder)
    (fields : List (Field Value)) : ∀ s : σ,
    readFields reader s (flattenFields fields) order
      = ⟨flattenFields (readFields reader s fields order).target,
          (readFields reader s fields order).next, (readFields reader s fields order).out⟩ := by
  induction fields using flattenFields.induct with
  | case1 => intro s; simp [flattenFields, readFields]
  | case2 embedded inner rest ihi ihr =>
      intro s
      have hf : readField reader s ⟨true, embedded, .struct inner⟩ order
          = ⟨⟨true, embedded, .struct (readFields reader s inner order).target⟩,
              (readFields reader s inner order).next, (readFields reader s inner order).out⟩ := by
        simp [readField, CanSet, CanInterface, ReadStruct, Value.Elem]
      rw [flattenFields, readFields_append, ihi s]
      simp only [readFields, hf]
      by_cases h : (readFields reader s inner order).out = .ok
      · simp only [h, if_true, ihr]
        simp [flattenFields]
      · simp [h, flattenFields]
  | case3 field rest hns ihr =>
      intro s
      rw [flattenFields_cons_of_not_struct field rest hns]
      simp only [readFields]
      have hns2 := readField_target_not_struct reader s order field hns
      by_cases h : (readField reader s field order).out = .ok
      · simp only [h, if_true, ihr]
        rw [flattenFields_cons_of_not_struct _ _ hns2]
      · simp only [h, if_false]
        rw [flattenFields_cons_of_not_struct _ _ hns2]

/-! ## What `Write` does with a composite -/

theorem Write_reflectValue {τ : Type} (dest : Writer τ) (t : τ) (v : Value)
    (order : ByteOrder) : Write dest t (reflectValue v) order = ⟨0, t, .ok⟩ := by
  simp [Write, writeFields, Value.Elem, CanInterface, reflectValue]

theorem writeFields_eq {τ : Type} (dest : Writer τ) (order : ByteOrder)
    (fields : List (Field Value)) : ∀ (t : τ) (w : Nat),
    writeFields dest t fields order w = ⟨w, t, .ok⟩ := by
  induction fields with
  | nil => intro t w; simp [writeFields]
  | cons f rest ih =>
      intro t w
      by_cases h : CanInterface f = true
      · simp [writeFields, h, Write_reflectValue, ih]
      · simp [writeFields, h, ih]

/-! ## The claims -/

/-- Claim C1, as stated, fails for a scalar at the top level: `Write` emits the two bytes of
the uint16 value 0x0102, and `ReadStruct` into a pointer to a uint16 returns
`unsupported data type` without reading them, because it dispatches on struct, slice and
array only. -/
theorem roundtrip_fails_for_top_level_scalar :
    Write bufferSink [] (.uint .Uint16 0x0102) .BigEndian = ⟨2, [0x01, 0x02], .ok⟩
    ∧ ReadStruct bytesBuffer [0x01, 0x02] (.ptr (.uint .Uint16 0)) .BigEndian
      = ⟨.ptr (.uint .Uint16 0), [0x01, 0x02], .error .unsupportedDataType⟩ := by
  constructor
  · simp [Write, Value.Elem, sinkWrite, bufferSink, ByteOrder.PutUint16, byte]
  · simp [ReadStruct]

/-- Claim C2 fails on the code: a `bytes.Buffer` holding the single byte 0xAB answers a read
of two bytes with one byte and a nil error; `ReadBytes` then returns no buffer and a nil
error, `ReadUint` and `ReadInt` return the value 0 with a nil error, and `ReadStruct` into a
struct with one uint16 field returns nil after storing 0 in the field. -/
theorem short_read_with_nil_error_is_accepted (order : ByteOrder) :
    bytesBuffer [0xAB] 2 = ⟨[0xAB], none, []⟩
    ∧ ReadBytes bytesBuffer [0xAB] 2 = ⟨none, none, []⟩
    ∧ ReadUint bytesBuffer [0xAB] 2 order = ⟨0, none, []⟩
    ∧ ReadInt bytesBuffer [0xAB] 2 order = ⟨0, none, []⟩
    ∧ ReadStruct bytesBuffer [0xAB] (.ptr (.struct [⟨true, false, .uint .Uint16 7⟩])) order
      = ⟨.ptr (.struct [⟨true, false, .uint .Uint16 0⟩]), [], .ok⟩ := by
  have h0 : bytesBuffer [0xAB] 2 = ⟨[0xAB], none, []⟩ := by simp [bytesBuffer]
  have h1 : ReadBytes bytesBuffer [0xAB] 2 = ⟨none, none, []⟩ := by
    simp [ReadBytes, bytesBuffer]
  have h2 : ReadUint bytesBuffer [0xAB] 2 order = ⟨0, none, []⟩ := by
    cases order <;> simp [ReadUint, h1, PadBytes, ByteOrder.Uint64, byteAt]
  have h3 : ReadInt bytesBuffer [0xAB] 2 order = ⟨0, none, []⟩ := by
    cases order <;> simp [ReadInt, h1, PadBytes, ByteOrder.Uint64, byteAt, toInt64]
  refine ⟨h0, h1, h2, h3, ?_⟩
  simp [ReadStruct, readFields, readField, CanSet, CanInterface, UintKind.size, h2,
    OverflowUint, SetUint]

/-- Claim C3 fails on the code: for the struct with the single exported uint8 field holding 1,
`Write` hands the field over as a `reflect.Value`, finds no exported field in that, and so
returns the count 0 and a nil error without writing a byte. -/
theorem Write_struct_appends_nothing (order : ByteOrder) :
    Write bufferSink [] (.struct [⟨true, false, .uint .Uint8 1⟩]) order = ⟨0, [], .ok⟩
    ∧ Write bufferSink [] (.uint .Uint8 1) order = ⟨1, [0x01], .ok⟩ := by
  constructor
  · simp [Write, writeFields, Value.Elem, CanInterface, reflectValue]
  · simp [Write, Value.Elem, sinkWrite, bufferSink, byte]

/-- Claim C4 fails on the code: for a slice or an array of one struct with a uint8 field and
a source holding one byte, `ReadArray` and `ReadStruct` return `dest must be a pointer`,
read nothing and leave the element as it was, because the element is handed to `ReadStruct`
by value. -/
theorem ReadArray_of_structs_fails (order : ByteOrder) (fixed : Bool) :
    ReadArray bytesBuffer [0x01]
        (.ptr (Value.seq fixed [.struct [⟨true, false, .uint .Uint8 0⟩]])) order
      = ⟨.ptr (Value.seq fixed [.struct [⟨true, false, .uint .Uint8 0⟩]]), [0x01],
          .error .destNotPointer⟩
    ∧ ReadStruct bytesBuffer [0x01]
        (.ptr (Value.seq fixed [.struct [⟨true, false, .uint .Uint8 0⟩]])) order
      = ⟨.ptr (Value.seq fixed [.struct [⟨true, false, .uint .Uint8 0⟩]]), [0x01],
          .error .destNotPointer⟩ := by
  cases fixed <;> simp [Value.seq, ReadArray, readCells, readCell, ReadStruct]

/-- Claim C5 fails on the code: with the single source byte 0xFF, `ReadInt` of one byte
returns 255 (the byte is padded with zero bytes, not sign-extended), and `ReadStruct` into a
struct with one int8 field returns the overflow error and leaves the field as it was. -/
theorem decode_0xFF_into_int8_overflows (order : ByteOrder) :
    ReadInt bytesBuffer [0xFF] 1 order = ⟨255, none, []⟩
    ∧ ReadStruct bytesBuffer [0xFF] (.ptr (.struct [⟨true, false, .int .Int8 0⟩])) order
      = ⟨.ptr (.struct [⟨true, false, .int .Int8 0⟩]), [], .error .overflow⟩ := by
  have h : ReadInt bytesBuffer [0xFF] 1 order = ⟨255, none, []⟩ := by
    cases order <;>
      simp [ReadInt, ReadBytes, bytesBuffer, PadBytes, ByteOrder.Uint64, byteAt, toInt64,
        Fin.coe_ofNat_eq_mod]
  refine ⟨h, ?_⟩
  have ho : OverflowInt .Int8 255 = true := by decide
  simp [ReadStruct, readFields, readField, CanSet, CanInterface, IntKind.size, h, ho]

/-- Claim C6: the overflow check is an exact range check. For a settable signed leaf (struct
field or sequence cell) of kind `k` holding `old`, when `ReadInt` returns the value `n`
without error the decoder stores exactly `n` if `minValue k ≤ n ≤ maxValue k` and otherwise
returns the overflow error and leaves `old`; likewise for an unsigned leaf with `ReadUint`
and `n ≤ maxValue ku`. The value read from the bytes FF FF as 16 bits is 0xFFFF, which
overflows a signed 8-bit target. -/
theorem overflow_check_is_exact_range_check {σ : Type} (reader : Reader σ) (s : σ)
    (order : ByteOrder) (embedded : Bool) (k : IntKind) (old : ℤ) (ku : UintKind) (oldu : Nat) :
    readField reader s ⟨true, embedded, .int k old⟩ order
        = (match (ReadInt reader s k.size order).err with
          | some e => ⟨⟨true, embedded, .int k old⟩, (ReadInt reader s k.size order).next, .error e⟩
          | none =>
              if k.minValue ≤ (ReadInt reader s k.size order).val
                  ∧ (ReadInt reader s k.size order).val ≤ k.maxValue then
                ⟨⟨true, embedded, .int k (ReadInt reader s k.size order).val⟩,
                  (ReadInt reader s k.size order).next, .ok⟩
              else
                ⟨⟨true, embedded, .int k old⟩, (ReadInt reader s k.size order).next,
                  .error .overflow⟩)
    ∧ readField reader s ⟨true, embedded, .uint ku oldu⟩ order
        = (match (ReadUint reader s ku.size order).err with
          | some e =>
              ⟨⟨true, embedded, .uint ku oldu⟩, (ReadUint reader s ku.size order).next, .error e⟩
          | none =>
              if (ReadUint reader s ku.size order).val ≤ ku.maxValue then
                ⟨⟨true, embedded, .uint ku (ReadUint reader s ku.size order).val⟩,
                  (ReadUint reader s ku.size order).next, .ok⟩
              else
                ⟨⟨true, embedded, .uint ku oldu⟩, (ReadUint reader s ku.size order).next,
                  .error .overflow⟩)
    ∧ readCell reader s true (.int k old) order
        = (match (ReadInt reader s k.size order).err with
          | some e => ⟨.int k old, (ReadInt reader s k.size order).next, .error e⟩
          | none =>
              if k.minValue ≤ (ReadInt reader s k.size order).val
                  ∧ (ReadInt reader s k.size order).val ≤ k.maxValue then
                ⟨.int k (ReadInt reader s k.size order).val,
                  (ReadInt reader s k.size order).next, .ok⟩
              else ⟨.int k old, (ReadInt reader s k.size order).next, .error .overflow⟩)
    ∧ readCell reader s true (.uint ku oldu) order
        = (match (ReadUint reader s ku.size order).err with
          | some e => ⟨.uint ku oldu, (ReadUint reader s ku.size order).next, .error e⟩
          | none =>
              if (ReadUint reader s ku.size order).val ≤ ku.maxValue then
                ⟨.uint ku (ReadUint reader s ku.size order).val,
                  (ReadUint reader s ku.size order).next, .ok⟩
              else ⟨.uint ku oldu, (ReadUint reader s ku.size order).next, .error .overflow⟩)
    ∧ (ReadInt bytesBuffer [0xFF, 0xFF] 2 order).val = 0xFFFF
    ∧ OverflowInt .Int8 (ReadInt bytesBuffer [0xFF, 0xFF] 2 order).val = true := by
  have hb := ReadInt_val_bounds reader s k.size order
  have hu := ReadUint_val_lt reader s ku.size order
  have hi := OverflowInt_eq_false_iff k _ hb.1 hb.2
  have hui := OverflowUint_eq_false_iff ku _ hu
  have hex : (ReadInt bytesBuffer [0xFF, 0xFF] 2 order).val = 0xFFFF := by
    cases order <;>
      simp [ReadInt, ReadBytes, bytesBuffer, PadBytes, ByteOrder.Uint64, byteAt, toInt64,
        Fin.coe_ofNat_eq_mod]
  refine ⟨?_, ?_, ?_, ?_, hex, ?_⟩
  · simp only [readField, CanSet, CanInterface]
    cases (ReadInt reader s k.size order).err with
    | some e => simp
    | none =>
        by_cases hr : k.minValue ≤ (ReadInt reader s k.size order).val
            ∧ (ReadInt reader s k.size order).val ≤ k.maxValue
        · simp [hi.2 hr, hr, SetInt_of_inRange k _ hr]
        · have : OverflowInt k (ReadInt reader s k.size order).val = true := by
            cases h : OverflowInt k (ReadInt reader s k.size order).val
            · exact absurd (hi.1 h) hr
            · rfl
          simp [this, hr]
  · simp only [readField, CanSet, CanInterface]
    cases (ReadUint reader s ku.size order).err with
    | some e => simp
    | none =>
        by_cases hr : (ReadUint reader s ku.size order).val ≤ ku.maxValue
        · simp [hui.2 hr, hr, SetUint_of_inRange ku _ hr]
        · have : OverflowUint ku (ReadUint reader s ku.size order).val = true := by
            cases h : OverflowUint ku (ReadUint reader s ku.size order).val
            · exact absurd (hui.1 h) hr
            · rfl
          simp [this, hr]
  · simp only [readCell]
    cases (ReadInt reader s k.size order).err with
    | some e => simp
    | none =>
        by_cases hr : k.minValue ≤ (ReadInt reader s k.size order).val
            ∧ (ReadInt reader s k.size order).val ≤ k.maxValue
        · simp [hi.2 hr, hr, SetInt_of_inRange k _ hr]
        · have : OverflowInt k (ReadInt reader s k.size order).val = true := by
            cases h : OverflowInt k (ReadInt reader s k.size order).val
            · exact absurd (hi.1 h) hr
            · rfl
          simp [this, hr]
  · simp only [readCell]
    cases (ReadUint reader s ku.size order).err with
    | some e => simp
    | none =>
        by_cases hr : (ReadUint reader s ku.size order).val ≤ ku.maxValue
        · simp [hui.2 hr, hr, SetUint_of_inRange ku _ hr]
        · have : OverflowUint ku (ReadUint reader s ku.size order).val = true := by
            cases h : OverflowUint ku (ReadUint reader s ku.size order).val
            · exact absurd (hui.1 h) hr
            · rfl
          simp [this, hr]
  · rw [hex]; decide

/-- Claim C7 fails on the code: `Write` of an int8 value panics for every sink and byte
order, before anything is written, because the branch for Int8 calls `v.Uint()`. -/
theorem Write_int8_panics {τ : Type} (dest : Writer τ) (t : τ) (n : ℤ) (order : ByteOrder) :
    Write dest t (.int .Int8 n) order = ⟨0, t, .panic⟩ := by
  simp [Write, Value.Elem]

/-- Claim C8 fails on the code: writing the slice of the two uint16 values 0x0102 and 0x0304
in big-endian to a sink with room for three bytes leaves the three bytes 01 02 03 in the
sink, and `Write` returns the count 2 with the error of the sink. -/
theorem Write_count_misses_short_write :
    Write (limitedSink 3) [] (.slice [.uint .Uint16 0x0102, .uint .Uint16 0x0304]) .BigEndian
      = ⟨2, [0x01, 0x02, 0x03], .error .shortWrite⟩ := by
  simp [Write, writeElems, Value.Elem, sinkWrite, limitedSink, ByteOrder.PutUint16, byte]

/-- Claim C9: for every 16-byte source `b` and byte order, `ReadStruct` into the composite
`uintstruct01` (uint16, uint8, uint32, uint64, uint8) succeeds, consumes all 16 bytes and
sets the fields to the unsigned integers that `b[0..2)`, `b[2..3)`, `b[3..7)`, `b[7..15)` and
`b[15..16)` denote in that byte order. -/
theorem flat_composite_decode (b : List Byte) (order : ByteOrder) (v0 v1 v2 v3 v4 : Nat)
    (h : b.length = 16) :
    ReadStruct bytesBuffer b (.ptr (uintstruct01 v0 v1 v2 v3 v4)) order
      = ⟨.ptr (uintstruct01 (order.value ((b.drop 0).take 2)) (order.value ((b.drop 2).take 1))
          (order.value ((b.drop 3).take 4)) (order.value ((b.drop 7).take 8))
          (order.value ((b.drop 15).take 1))), [], .ok⟩ := by
  have e0 := readField_uint_bytesBuffer b order false .Uint16 v0 (by simp [UintKind.size, h])
  have e1 := readField_uint_bytesBuffer (b.drop 2) order false .Uint8 v1
    (by simp [UintKind.size, h])
  have e2 := readField_uint_bytesBuffer (b.drop 3) order false .Uint32 v2
    (by simp [UintKind.size, h])
  have e3 := readField_uint_bytesBuffer (b.drop 7) order false .Uint64 v3
    (by simp [UintKind.size, h])
  have e4 := readField_uint_bytesBuffer (b.drop 15) order false .Uint8 v4
    (by simp [UintKind.size, h])
  simp only [UintKind.size, List.drop_drop] at e0 e1 e2 e3 e4
  norm_num at e0 e1 e2 e3 e4
  have hnil : b.drop 16 = [] := List.drop_of_length_le (by omega)
  simp [uintstruct01, ReadStruct, readFields, e0, e1, e2, e3, e4, hnil]

/-- Witness for claim C9: the bytes 00 01 .. 0F decode to 0x0001, 0x02, 0x03040506,
0x0708090A0B0C0D0E, 0x0F in big-endian and to 0x0100, 0x02, 0x06050403, 0x0E0D0C0B0A090807,
0x0F in little-endian. -/
theorem flat_composite_decode_buffer01 :
    ReadStruct bytesBuffer buffer01 (.ptr (uintstruct01 0 0 0 0 0)) .BigEndian
        = ⟨.ptr (uintstruct01 0x0001 0x02 0x03040506 0x0708090A0B0C0D0E 0x0F), [], .ok⟩
    ∧ ReadStruct bytesBuffer buffer01 (.ptr (uintstruct01 0 0 0 0 0)) .LittleEndian
        = ⟨.ptr (uintstruct01 0x0100 0x02 0x06050403 0x0E0D0C0B0A090807 0x0F), [], .ok⟩ :=
  ⟨flat_composite_decode buffer01 .BigEndian 0 0 0 0 0 rfl,
   flat_composite_decode buffer01 .LittleEndian 0 0 0 0 0 rfl⟩

/-- Claim C10: flattening has no wire effect on decode. For every reader, byte order and
field list, `ReadStruct` on the composite with every exported nested composite (named or
embedded) replaced by its fields inline ends with the same outcome and the same reader as
`ReadStruct` on the composite itself, and its target is the flattening of the target that
the latter leaves. -/
theorem flattening_has_no_wire_effect {σ : Type} (reader : Reader σ) (s : σ) (order : ByteOrder)
    (fields : List (Field Value)) :
    ReadStruct reader s (.ptr (.struct (flattenFields fields))) order
      = ⟨.ptr (.struct (flattenFields
            (structFields (ReadStruct reader s (.ptr (.struct fields)) order).target))),
          (ReadStruct reader s (.ptr (.struct fields)) order).next,
          (ReadStruct reader s (.ptr (.struct fields)) order).out⟩ := by
  simp [ReadStruct, readFields_flattenFields, structFields]

/-! ## Padding, unsettable fields and the read path (claims C13, C16, C17, C19, C20) -/

theorem PadBytes_length_lt (src : List Byte) (w : Nat) (order : ByteOrder)
    (h : src.length < w) : (PadBytes src w order).length = w := by
  have h1 : ¬ ((w : ℤ) - (src.length : ℤ) ≤ 0) := by omega
  have h2 : ((w : ℤ) - (src.length : ℤ)).toNat = w - src.length := by omega
  cases order <;> simp [PadBytes, h1, h2] <;> omega

/-- Claim C13: the padding rule. `PadBytes src w order` returns `src` unchanged when
`len(src) ≥ w`; otherwise the result has length exactly `w` and is `src` followed by
`w - len(src)` zero bytes for little-endian and those zero bytes followed by `src` for
big-endian. -/
theorem PadBytes_rule (src : List Byte) (w : Nat) (order : ByteOrder) :
    (w ≤ src.length → PadBytes src w order = src)
    ∧ (src.length < w →
        (PadBytes src w order).length = w
        ∧ PadBytes src w .LittleEndian = src ++ List.replicate (w - src.length) 0
        ∧ PadBytes src w .BigEndian = List.replicate (w - src.length) 0 ++ src) := by
  constructor
  · intro h
    have h1 : (w : ℤ) - (src.length : ℤ) ≤ 0 := by omega
    simp [PadBytes, h1]
  · intro h
    have h1 : ¬ ((w : ℤ) - (src.length : ℤ) ≤ 0) := by omega
    have h2 : ((w : ℤ) - (src.length : ℤ)).toNat = w - src.length := by omega
    refine ⟨PadBytes_length_lt src w order h, ?_, ?_⟩ <;> simp [PadBytes, h1, h2]

/-- Witness for claim C13: three bytes with width 2 are left alone, two bytes are padded to
eight on the side the byte order asks for. -/
theorem PadBytes_rule_witness :
    ((2 ≤ ([1, 2, 3] : List Byte).length) ∧ PadBytes [1, 2, 3] 2 .BigEndian = [1, 2, 3])
    ∧ (([1, 2] : List Byte).length < 8
      ∧ (PadBytes [1, 2] 8 .BigEndian).length = 8
      ∧ PadBytes [1, 2] 8 .LittleEndian = [1, 2] ++ List.replicate (8 - ([1, 2] : List Byte).length) 0
      ∧ PadBytes [1, 2] 8 .BigEndian = List.replicate (8 - ([1, 2] : List Byte).length) 0 ++ [1, 2]) :=
  ⟨⟨by decide, (PadBytes_rule [1, 2, 3] 2 .BigEndian).1 (by decide)⟩,
   ⟨by decide, (PadBytes_rule [1, 2] 8 .BigEndian).2 (by decide)⟩⟩

theorem ReadStruct_struct_eq {σ : Type} (reader : Reader σ) (s : σ) (order : ByteOrder)
    (fields : List (Field Value)) :
    ReadStruct reader s (.ptr (.struct fields)) order
      = ⟨.ptr (.struct (readFields reader s fields order).target),
          (readFields reader s fields order).next, (readFields reader s fields order).out⟩ := by
  simp [ReadStruct]

/-- Claim C16: an unsettable field is an error on decode. When the fields before an
unexported field decode successfully, `ReadStruct` returns the not-settable error at that
field, with the reader exactly as the earlier fields left it, the earlier fields decoded and
the unexported field and every later field as they were. -/
theorem unsettable_field_is_error {σ : Type} (reader : Reader σ) (s : σ) (order : ByteOrder)
    (before after : List (Field Value)) (embedded : Bool) (v : Value)
    (hbefore : (ReadStruct reader s (.ptr (.struct before)) order).out = .ok) :
    ReadStruct reader s (.ptr (.struct (before ++ ⟨false, embedded, v⟩ :: after))) order
      = ⟨.ptr (.struct
            (structFields (ReadStruct reader s (.ptr (.struct before)) order).target
              ++ ⟨false, embedded, v⟩ :: after)),
          (ReadStruct reader s (.ptr (.struct before)) order).next, .error .notSettable⟩ := by
  rw [ReadStruct_struct_eq] at hbefore
  simp only at hbefore
  have hf : ∀ s2 : σ, readFields reader s2 (⟨false, embedded, v⟩ :: after) order
      = ⟨⟨false, embedded, v⟩ :: after, s2, .error .notSettable⟩ := by
    intro s2
    simp [readFields, readField, CanSet]
  simp [ReadStruct_struct_eq, readFields_append, hbefore, hf, structFields]

/-- Witness for claim C16: a struct of three uint8 fields with the second one unexported,
over the bytes 01 02 03. -/
theorem unsettable_field_is_error_witness :
    (ReadStruct bytesBuffer [0x01, 0x02, 0x03]
        (.ptr (.struct [⟨true, false, .uint .Uint8 0⟩])) .BigEndian).out = .ok
    ∧ ReadStruct bytesBuffer [0x01, 0x02, 0x03]
        (.ptr (.struct ([⟨true, false, .uint .Uint8 0⟩]
          ++ ⟨false, false, .uint .Uint8 0⟩ :: [⟨true, false, .uint .Uint8 0⟩]))) .BigEndian
      = ⟨.ptr (.struct
            (structFields (ReadStruct bytesBuffer [0x01, 0x02, 0x03]
                (.ptr (.struct [⟨true, false, .uint .Uint8 0⟩])) .BigEndian).target
              ++ ⟨false, false, .uint .Uint8 0⟩ :: [⟨true, false, .uint .Uint8 0⟩])),
          (ReadStruct bytesBuffer [0x01, 0x02, 0x03]
            (.ptr (.struct [⟨true, false, .uint .Uint8 0⟩])) .BigEndian).next,
          .error .notSettable⟩ :=
  have h : (ReadStruct bytesBuffer [0x01, 0x02, 0x03]
      (.ptr (.struct [⟨true, false, .uint .Uint8 0⟩])) .BigEndian).out = .ok := by
    simp [ReadStruct, readFields, readField_uint_bytesBuffer, UintKind.size]
  ⟨h, unsettable_field_is_error bytesBuffer _ .BigEndian _ _ false _ h⟩

theorem ReadBytes_of_delivered {σ : Type} (reader : Reader σ) (s s' : σ) (count : Nat)
    (b : List Byte) (hb : b.length = count) (hr : reader s count = ⟨b, none, s'⟩) :
    ReadBytes reader s count = ⟨some b, none, s'⟩ := by
  simp [ReadBytes, hr, hb]

theorem ReadUint_of_delivered {σ : Type} (reader : Reader σ) (s s' : σ) (count : Nat)
    (b : List Byte) (order : ByteOrder) (hb : b.length = count) (h8 : count ≤ 8)
    (hr : reader s count = ⟨b, none, s'⟩) :
    ReadUint reader s count order = ⟨order.value b, none, s'⟩ := by
  simp [ReadUint, ReadBytes_of_delivered reader s s' count b hb hr,
    Uint64_PadBytes_eq_value order b (by omega)]

theorem ReadInt_of_delivered {σ : Type} (reader : Reader σ) (s s' : σ) (count : Nat)
    (b : List Byte) (order : ByteOrder) (hb : b.length = count) (h8 : count ≤ 8)
    (hr : reader s count = ⟨b, none, s'⟩) :
    ReadInt reader s count order = ⟨toInt64 (order.value b), none, s'⟩ := by
  simp [ReadInt, ReadBytes_of_delivered reader s s' count b hb hr,
    Uint64_PadBytes_eq_value order b (by omega)]

/-- Claim C17: the single 64-bit read path is value-preserving. For a byte list `b` of
length `W` in {1, 2, 4, 8} that the reader delivers in full, and each byte order `o`,
`o.Uint64(PadBytes(b, 8, o))` is the number `b` denotes in order `o`, `ReadUint` returns that
number and `ReadInt` returns the same 64 bits read as a signed number. -/
theorem single_read_path_is_value_preserving {σ : Type} (reader : Reader σ) (s s' : σ)
    (W : Nat) (b : List Byte) (order : ByteOrder)
    (hW : W = 1 ∨ W = 2 ∨ W = 4 ∨ W = 8) (hb : b.length = W)
    (hr : reader s W = ⟨b, none, s'⟩) :
    order.Uint64 (PadBytes b 8 order) = order.value b
    ∧ ReadUint reader s W order = ⟨order.value b, none, s'⟩
    ∧ ReadInt reader s W order = ⟨toInt64 (order.value b), none, s'⟩ := by
  have h8 : W ≤ 8 := by omega
  exact ⟨Uint64_PadBytes_eq_value order b (by omega),
    ReadUint_of_delivered reader s s' W b order hb h8 hr,
    ReadInt_of_delivered reader s s' W b order hb h8 hr⟩

/-- Witness for claim C17: the two bytes 34 12 read in little-endian from a `bytes.Buffer`. -/
theorem single_read_path_is_value_preserving_witness :
    ByteOrder.LittleEndian.Uint64 (PadBytes [0x34, 0x12] 8 .LittleEndian) = 0x1234
    ∧ ReadUint bytesBuffer [0x34, 0x12, 0xFF] 2 .LittleEndian = ⟨0x1234, none, [0xFF]⟩
    ∧ ReadInt bytesBuffer [0x34, 0x12, 0xFF] 2 .LittleEndian = ⟨0x1234, none, [0xFF]⟩ :=
  single_read_path_is_value_preserving bytesBuffer [0x34, 0x12, 0xFF] [0xFF] 2 [0x34, 0x12]
    .LittleEndian (by decide) rfl rfl
theorem value_nil (order : ByteOrder) : order.value [] = 0 := by
  cases order <;> rfl

theorem ReadUint_val_le_maxValue {σ : Type} (reader : Reader σ) (s : σ) (k : UintKind)
    (order : ByteOrder) : (ReadUint reader s k.size order).val ≤ k.maxValue := by
  have hpos : 0 < 2 ^ (8 * k.size) := by positivity
  simp only [ReadUint, ReadBytes]
  by_cases h : (reader s k.size).data.length = k.size ∧ (reader s k.size).err = none
  · have hl : (List.take k.size ((reader s k.size).data ++ List.replicate k.size (0 : Byte))).length
        = k.size := by
      simp
    have h8 : (List.take k.size ((reader s k.size).data
        ++ List.replicate k.size (0 : Byte))).length ≤ 8 := by
      rw [hl]; exact uintKind_size_le_eight k
    simp only [h, and_self, if_true, Option.getD_some]
    rw [Uint64_PadBytes_eq_value order _ h8]
    have h1 := value_lt order
      (List.take k.size ((reader s k.size).data ++ List.replicate k.size (0 : Byte)))
    rw [hl] at h1
    have h3 : (256 : Nat) ^ k.size = 2 ^ (8 * k.size) := by
      rw [pow_mul]; norm_num
    simp only [UintKind.maxValue]
    omega
  · simp only [h, if_false]
    cases (reader s k.size).err with
    | some e => simp
    | none =>
        have := Uint64_PadBytes_eq_value order [] (by simp)
        simp [this, value_nil]

/-- Claim C19: unsigned overflow is unreachable. For every reader, byte order and unsigned
kind, the value `ReadUint` returns for the width of the kind is at most `2^(8W) - 1`, so
`OverflowUint` is false on it, and the decode of an unsigned field or cell either passes on
the error of the read or stores the value: the overflow branch is never taken. -/
theorem unsigned_overflow_is_unreachable {σ : Type} (reader : Reader σ) (s : σ)
    (order : ByteOrder) (embedded : Bool) (ku : UintKind) (old : Nat) :
    (ReadUint reader s ku.size order).val ≤ ku.maxValue
    ∧ OverflowUint ku (ReadUint reader s ku.size order).val = false
    ∧ readField reader s ⟨true, embedded, .uint ku old⟩ order
        = (match (ReadUint reader s ku.size order).err with
          | some e =>
              ⟨⟨true, embedded, .uint ku old⟩, (ReadUint reader s ku.size order).next, .error e⟩
          | none =>
              ⟨⟨true, embedded, .uint ku (ReadUint reader s ku.size order).val⟩,
                (ReadUint reader s ku.size order).next, .ok⟩)
    ∧ readCell reader s true (.uint ku old) order
        = (match (ReadUint reader s ku.size order).err with
          | some e => ⟨.uint ku old, (ReadUint reader s ku.size order).next, .error e⟩
          | none =>
              ⟨.uint ku (ReadUint reader s ku.size order).val,
                (ReadUint reader s ku.size order).next, .ok⟩) := by
  have hm := ReadUint_val_le_maxValue reader s ku order
  have ho := (OverflowUint_eq_false_iff ku _ (ReadUint_val_lt reader s ku.size order)).2 hm
  refine ⟨hm, ho, ?_, ?_⟩
  · simp only [readField, CanSet, CanInterface]
    cases (ReadUint reader s ku.size order).err with
    | some e => simp
    | none => simp [ho, SetUint_of_inRange ku _ hm]
  · simp only [readCell]
    cases (ReadUint reader s ku.size order).err with
    | some e => simp
    | none => simp [ho, SetUint_of_inRange ku _ hm]

theorem toInt64_of_lt (u : Nat) (h : u < 2 ^ 63) : toInt64 u = (u : ℤ) := by
  unfold toInt64
  have : u % 2 ^ 64 = u := Nat.mod_eq_of_lt (by omega)
  rw [this, if_pos h]

theorem narrow_inRange_iff (k : IntKind) (hk : k = .Int8 ∨ k = .Int16 ∨ k = .Int32)
    (u : Nat) (hu : u < 256 ^ k.size) :
    (k.minValue ≤ toInt64 u ∧ toInt64 u ≤ k.maxValue) ↔ u < 2 ^ (8 * k.size - 1) := by
  rcases hk with h | h | h <;> subst h <;>
    simp only [IntKind.size, IntKind.minValue, IntKind.maxValue] at hu ⊢ <;>
    rw [toInt64_of_lt u (by norm_num at hu ⊢; omega)] <;>
    norm_num <;> omega
theorem readField_narrow_int_of_delivered {σ : Type} (reader : Reader σ) (s s' : σ)
    (order : ByteOrder) (embedded : Bool) (k : IntKind) (old : ℤ) (b : List Byte)
    (hk : k = .Int8 ∨ k = .Int16 ∨ k = .Int32) (hb : b.length = k.size)
    (hr : reader s k.size = ⟨b, none, s'⟩) :
    readField reader s ⟨true, embedded, .int k old⟩ order
      = (if order.value b < 2 ^ (8 * k.size - 1) then
          ⟨⟨true, embedded, .int k (order.value b)⟩, s', .ok⟩
        else ⟨⟨true, embedded, .int k old⟩, s', .error .overflow⟩) := by
  have hv := value_lt order b
  rw [hb] at hv
  have hiff := narrow_inRange_iff k hk _ hv
  have hbd := toInt64_bounds (order.value b)
  have ho := OverflowInt_eq_false_iff k _ hbd.1 hbd.2
  have e := ReadInt_of_delivered reader s s' k.size b order hb (intKind_size_le_eight k) hr
  simp only [readField, CanSet, CanInterface, e]
  by_cases hlt : order.value b < 2 ^ (8 * k.size - 1)
  · have hr2 := hiff.2 hlt
    have h63 : order.value b < 2 ^ 63 := by
      have : 2 ^ (8 * k.size - 1) ≤ 2 ^ 63 :=
        Nat.pow_le_pow_right (by norm_num) (by have := intKind_size_le_eight k; omega)
      omega
    have hto := toInt64_of_lt _ h63
    rw [hto] at hr2 ho
    simp [hlt, hto, ho.2 hr2, SetInt_of_inRange k _ hr2]
  · have : OverflowInt k (toInt64 (order.value b)) = true := by
      cases h : OverflowInt k (toInt64 (order.value b))
      · exact absurd (hiff.1 (ho.1 h)) hlt
      · rfl
    simp [hlt, this]

theorem readCell_narrow_int_of_delivered {σ : Type} (reader : Reader σ) (s s' : σ)
    (order : ByteOrder) (k : IntKind) (old : ℤ) (b : List Byte)
    (hk : k = .Int8 ∨ k = .Int16 ∨ k = .Int32) (hb : b.length = k.size)
    (hr : reader s k.size = ⟨b, none, s'⟩) :
    readCell reader s true (.int k old) order
      = (if order.value b < 2 ^ (8 * k.size - 1) then ⟨.int k (order.value b), s', .ok⟩
        else ⟨.int k old, s', .error .overflow⟩) := by
  have hv := value_lt order b
  rw [hb] at hv
  have hiff := narrow_inRange_iff k hk _ hv
  have hbd := toInt64_bounds (order.value b)
  have ho := OverflowInt_eq_false_iff k _ hbd.1 hbd.2
  have e := ReadInt_of_delivered reader s s' k.size b order hb (intKind_size_le_eight k) hr
  simp only [readCell, e]
  by_cases hlt : order.value b < 2 ^ (8 * k.size - 1)
  · have hr2 := hiff.2 hlt
    have h63 : order.value b < 2 ^ 63 := by
      have : 2 ^ (8 * k.size - 1) ≤ 2 ^ 63 :=
        Nat.pow_le_pow_right (by norm_num) (by have := intKind_size_le_eight k; omega)
      omega
    have hto := toInt64_of_lt _ h63
    rw [hto] at hr2 ho
    simp [hlt, hto, ho.2 hr2, SetInt_of_inRange k _ hr2]
  · have : OverflowInt k (toInt64 (order.value b)) = true := by
      cases h : OverflowInt k (toInt64 (order.value b))
      · exact absurd (hiff.1 (ho.1 h)) hlt
      · rfl
    simp [hlt, this]

theorem bytesBuffer_exact (b : List Byte) (h : b ≠ []) :
    bytesBuffer b b.length = ⟨b, none, []⟩ := by
  cases b with
  | nil => exact absurd rfl h
  | cons x t => simp [bytesBuffer]

theorem Write_negative_narrow (order : ByteOrder) (k : IntKind) (n : ℤ)
    (hk : k = .Int16 ∨ k = .Int32) (hlo : k.minValue ≤ n) (hneg : n < 0) :
    (Write bufferSink [] (.int k n) order).next.length = k.size
    ∧ 2 ^ (8 * k.size - 1) ≤ order.value (Write bufferSink [] (.int k n) order).next := by
  rcases hk with h | h <;> subst h
  · simp only [IntKind.minValue, IntKind.size] at hlo
    norm_num at hlo
    simp [Write, Value.Elem, sinkWrite, bufferSink, length_PutUint16, value_PutUint16,
      IntKind.size]
    omega
  · simp only [IntKind.minValue, IntKind.size] at hlo
    norm_num at hlo
    simp [Write, Value.Elem, sinkWrite, bufferSink, length_PutUint32, value_PutUint32,
      IntKind.size]
    omega

/-- Claim C20: narrow signed decodes are never negative. For a signed field or cell of
kind int8, int16 or int32 and a reader that delivers the `W` bytes `b`, the decode succeeds
iff `b` denotes an unsigned value below `2^(8W-1)`, and then stores that number; otherwise
it returns the overflow error and leaves the target as it was. The bytes `Write` emits for
a negative int16 or int32 are rejected in this way. -/
theorem narrow_signed_decodes_are_never_negative {σ : Type} (reader : Reader σ) (s s' : σ)
    (order : ByteOrder) (embedded : Bool) (k : IntKind) (old : ℤ) (b : List Byte)
    (hk : k = .Int8 ∨ k = .Int16 ∨ k = .Int32) (hb : b.length = k.size)
    (hr : reader s k.size = ⟨b, none, s'⟩) :
    readField reader s ⟨true, embedded, .int k old⟩ order
        = (if order.value b < 2 ^ (8 * k.size - 1) then
            ⟨⟨true, embedded, .int k (order.value b)⟩, s', .ok⟩
          else ⟨⟨true, embedded, .int k old⟩, s', .error .overflow⟩)
    ∧ readCell reader s true (.int k old) order
        = (if order.value b < 2 ^ (8 * k.size - 1) then ⟨.int k (order.value b), s', .ok⟩
          else ⟨.int k old, s', .error .overflow⟩)
    ∧ ∀ n : ℤ, (k = .Int16 ∨ k = .Int32) → k.minValue ≤ n → n < 0 →
        readField bytesBuffer (Write bufferSink [] (.int k n) order).next
            ⟨true, embedded, .int k old⟩ order
          = ⟨⟨true, embedded, .int k old⟩, [], .error .overflow⟩
        ∧ readCell bytesBuffer (Write bufferSink [] (.int k n) order).next true
            (.int k old) order
          = ⟨.int k old, [], .error .overflow⟩ := by
  refine ⟨readField_narrow_int_of_delivered reader s s' order embedded k old b hk hb hr,
    readCell_narrow_int_of_delivered reader s s' order k old b hk hb hr, ?_⟩
  intro n hk2 hlo hneg
  obtain ⟨hlen, hge⟩ := Write_negative_narrow order k n hk2 hlo hneg
  have hne : (Write bufferSink [] (.int k n) order).next ≠ [] := by
    intro h0
    rw [h0] at hlen
    rcases hk2 with h | h <;> subst h <;> simp [IntKind.size] at hlen
  have hx := bytesBuffer_exact _ hne
  rw [hlen] at hx
  have hnot : ¬ order.value (Write bufferSink [] (.int k n) order).next
      < 2 ^ (8 * k.size - 1) := by omega
  constructor
  · rw [readField_narrow_int_of_delivered bytesBuffer _ [] order embedded k old _ hk hlen hx,
      if_neg hnot]
  · rw [readCell_narrow_int_of_delivered bytesBuffer _ [] order k old _ hk hlen hx,
      if_neg hnot]

/-- Witness for claim C20: the byte 7F decodes into an int8 field as 127, the byte FF is
rejected for an int8 cell. -/
theorem narrow_signed_decodes_are_never_negative_witness :
    readField bytesBuffer [0x7F, 0xFF] ⟨true, false, .int .Int8 0⟩ .BigEndian
        = ⟨⟨true, false, .int .Int8 0x7F⟩, [0xFF], .ok⟩
    ∧ readCell bytesBuffer [0xFF] true (.int .Int8 0) .BigEndian
        = ⟨.int .Int8 0, [], .error .overflow⟩ :=
  ⟨(narrow_signed_decodes_are_never_negative bytesBuffer [0x7F, 0xFF] [0xFF] .BigEndian false
      .Int8 0 [0x7F] (Or.inl rfl) rfl rfl).1,
   (narrow_signed_decodes_are_never_negative bytesBuffer [0xFF] [] .BigEndian false
      .Int8 0 [0xFF] (Or.inl rfl) rfl rfl).2.1⟩

/-! ## Sequences of bytes and of unsigned scalars (claims C12, C18) -/

theorem byte_val (b : Byte) : byte b.val = b := by
  apply Fin.ext
  simp [byte, Nat.mod_eq_of_lt b.isLt]

theorem writeElems_bytes (order : ByteOrder) (s : List Byte) : ∀ (t : List Byte) (w : Nat),
    writeElems bufferSink t (s.map fun b => .uint .Uint8 b.val) order w
      = ⟨w + s.length, t ++ s, .ok⟩ := by
  induction s with
  | nil => intro t w; simp [writeElems]
  | cons b rest ih =>
      intro t w
      simp [writeElems, Write, Value.Elem, sinkWrite, bufferSink, byte_val, ih]
      omega

/-- Claim C12: byte-sequence encoding. For every byte slice `s`, passed by value or by
pointer, and each byte order, `Write` into a `bytes.Buffer` returns `(len(s), nil)` and
appends exactly the elements of `s` in index order; for the 32-element slice 0, 1, .., 31 of
the test the count is 32. -/
theorem Write_byte_slice (s t : List Byte) (order : ByteOrder) :
    Write bufferSink t (byteSlice s) order = ⟨s.length, t ++ s, .ok⟩
    ∧ Write bufferSink t (.ptr (byteSlice s)) order = ⟨s.length, t ++ s, .ok⟩
    ∧ Write bufferSink [] (.ptr (byteSlice ((List.range 32).map byte))) .BigEndian
      = ⟨32, (List.range 32).map byte, .ok⟩ := by
  have h : ∀ (u v : List Byte) (o : ByteOrder),
      Write bufferSink v (.ptr (byteSlice u)) o = ⟨u.length, v ++ u, .ok⟩ := by
    intro u v o
    simp [byteSlice, Write, Value.Elem, writeElems_bytes]
  refine ⟨?_, h s t order, ?_⟩
  · simp [byteSlice, Write, Value.Elem, writeElems_bytes]
  · have := h ((List.range 32).map byte) [] .BigEndian
    simpa using this

theorem uint_plain_of_le (k : UintKind)
    (hk : k = .Uint8 ∨ k = .Uint16 ∨ k = .Uint32 ∨ k = .Uint64) (n : Nat)
    (h : n ≤ k.maxValue) : (Value.uint k n).plain = true := by
  rcases hk with h1 | h1 | h1 | h1 <;> subst h1 <;>
    simp [Value.plain, UintKind.maxValue, UintKind.size] at h ⊢ <;> omega

theorem scalarBytes_uint_length (order : ByteOrder) (k : UintKind)
    (hk : k = .Uint8 ∨ k = .Uint16 ∨ k = .Uint32 ∨ k = .Uint64) (n : Nat) :
    (scalarBytes order (.uint k n)).length = k.size := by
  rcases hk with h1 | h1 | h1 | h1 <;> subst h1 <;>
    simp [scalarBytes, UintKind.size, length_PutUint16, length_PutUint32, length_PutUint64]

theorem flatMap_scalarBytes_uint_length (order : ByteOrder) (k : UintKind)
    (hk : k = .Uint8 ∨ k = .Uint16 ∨ k = .Uint32 ∨ k = .Uint64) (vals : List Nat) :
    ((vals.map fun n => Value.uint k n).flatMap (scalarBytes order)).length
      = vals.length * k.size := by
  induction vals with
  | nil => simp
  | cons n rest ih =>
      simp only [List.map_cons, List.flatMap_cons, List.length_append, List.length_cons, ih,
        scalarBytes_uint_length order k hk n]
      ring

theorem forall₂_sameKind_uint (k : UintKind) : ∀ (olds vals : List Nat),
    olds.length = vals.length →
    List.Forall₂ (fun c e => Value.sameKind c e = true)
      (olds.map fun n => Value.uint k n) (vals.map fun n => Value.uint k n) := by
  intro olds
  induction olds with
  | nil =>
      intro vals h
      cases vals with
      | nil => exact .nil
      | cons _ _ => simp at h
  | cons o os ih =>
      intro vals h
      cases vals with
      | nil => simp at h
      | cons v vs =>
          exact .cons (by simp [Value.sameKind]) (ih vs (by simpa using h))

/-- Claim C18: round trip for unsigned sequences. For every slice or array of uint8,
uint16, uint32 or uint64 values and each byte order, `Write` into a `bytes.Buffer` returns
`(len(v) * width, nil)`, and `ReadStruct` over exactly the bytes written, into a pointer to a
sequence of the same element kind and length, returns nil, consumes all the bytes and leaves
the target equal to the values written. -/
theorem roundtrip_unsigned_sequence (order : ByteOrder) (fixed : Bool) (k : UintKind)
    (vals olds : List Nat) (hk : k = .Uint8 ∨ k = .Uint16 ∨ k = .Uint32 ∨ k = .Uint64)
    (hv : ∀ n ∈ vals, n ≤ k.maxValue) (hl : olds.length = vals.length) :
    (Write bufferSink [] (uintSeq fixed k vals) order).n = vals.length * k.size
    ∧ (Write bufferSink [] (uintSeq fixed k vals) order).out = .ok
    ∧ ReadStruct bytesBuffer (Write bufferSink [] (uintSeq fixed k vals) order).next
        (.ptr (uintSeq fixed k olds)) order
      = ⟨.ptr (uintSeq fixed k vals), [], .ok⟩ := by
  have hp : ∀ e ∈ (vals.map fun n => Value.uint k n), e.plain = true := by
    intro e he
    obtain ⟨n, hn, rfl⟩ := List.mem_map.1 he
    exact uint_plain_of_le k hk n (hv n hn)
  have hw := writeElems_plain order _ hp
  have hr := readCells_plain order [] _ _ (forall₂_sameKind_uint k olds vals hl) hp
  have hlen := flatMap_scalarBytes_uint_length order k hk vals
  simp only [List.append_nil] at hr
  cases fixed <;>
    simp [uintSeq, Value.seq, Write, Value.Elem, hw, ReadStruct, ReadArray, hr, hlen]

/-- Witness for claim C18: an array of two uint32 values in little-endian. -/
theorem roundtrip_unsigned_sequence_witness :
    (Write bufferSink [] (uintSeq true .Uint32 [0x00010203, 0xFFFFFFFF]) .LittleEndian).n
      = [0x00010203, 0xFFFFFFFF].length * UintKind.Uint32.size
    ∧ (Write bufferSink [] (uintSeq true .Uint32 [0x00010203, 0xFFFFFFFF]) .LittleEndian).out
      = .ok
    ∧ ReadStruct bytesBuffer
        (Write bufferSink [] (uintSeq true .Uint32 [0x00010203, 0xFFFFFFFF]) .LittleEndian).next
        (.ptr (uintSeq true .Uint32 [0, 0])) .LittleEndian
      = ⟨.ptr (uintSeq true .Uint32 [0x00010203, 0xFFFFFFFF]), [], .ok⟩ :=
  roundtrip_unsigned_sequence .LittleEndian true .Uint32 [0x00010203, 0xFFFFFFFF] [0, 0]
    (by decide) (by decide) rfl

/-! ## Bytes consumed (claim C11) -/

theorem readCell_consumed (buf : List Byte) (cell : Value) (order : ByteOrder)
    (hok : (readCell bytesBuffer buf true cell order).out = .ok)
    (hlen : cell.width ≤ buf.length) :
    (readCell bytesBuffer buf true cell order).next = buf.drop cell.width := by
  cases cell with
  | int k n =>
      simp only [Value.width] at hlen ⊢
      have e := ReadInt_bytesBuffer buf k.size order hlen (intKind_size_le_eight k)
      simp only [readCell, e]
      split <;> simp
  | uint k n =>
      simp only [Value.width] at hlen ⊢
      have e := ReadUint_bytesBuffer buf k.size order hlen (uintKind_size_le_eight k)
      simp only [readCell, e]
      split <;> simp
  | struct fs => simp [readCell, ReadStruct] at hok
  | slice es => simp [readCell] at hok
  | array es => simp [readCell] at hok
  | ptr e => simp [readCell] at hok
  | other => simp [readCell] at hok

theorem readCells_consumed (order : ByteOrder) (cells : List Value) : ∀ (buf : List Byte),
    (readCells bytesBuffer buf true cells order).out = .ok →
    widthList cells ≤ buf.length →
    (readCells bytesBuffer buf true cells order).next = buf.drop (widthList cells) := by
  induction cells with
  | nil => intro buf _ _; simp [readCells, widthList]
  | cons c rest ih =>
      intro buf hok hlen
      simp only [widthList] at hlen ⊢
      simp only [readCells] at hok ⊢
      by_cases h : (readCell bytesBuffer buf true c order).out = .ok
      · simp only [h, if_true] at hok ⊢
        have h1 := readCell_consumed buf c order h (by omega)
        rw [h1] at hok ⊢
        rw [ih _ hok (by simp; omega), List.drop_drop]
      · simp only [h, if_false] at hok

theorem readField_consumed_of_not_struct (buf : List Byte) (field : Field Value)
    (order : ByteOrder)
    (hns : ∀ (embedded : Bool) (inner : List (Field Value)),
      field = ⟨true, embedded, .struct inner⟩ → False)
    (hok : (readField bytesBuffer buf field order).out = .ok)
    (hlen : field.val.width ≤ buf.length) :
    (readField bytesBuffer buf field order).next = buf.drop field.val.width := by
  obtain ⟨exported, emb, val⟩ := field
  cases exported with
  | false => simp [readField, CanSet] at hok
  | true =>
      cases val with
      | struct fs => exact absurd rfl (fun e => hns emb fs e)
      | int k n =>
          simp only [Value.width] at hlen ⊢
          have e := ReadInt_bytesBuffer buf k.size order hlen (intKind_size_le_eight k)
          simp only [readField, CanSet, CanInterface, e]
          simp only [Bool.not_true, Bool.false_eq_true, if_false, if_true]
          split <;> simp
      | uint k n =>
          simp only [Value.width] at hlen ⊢
          have e := ReadUint_bytesBuffer buf k.size order hlen (uintKind_size_le_eight k)
          simp only [readField, CanSet, CanInterface, e]
          simp only [Bool.not_true, Bool.false_eq_true, if_false, if_true]
          split <;> simp
      | slice es =>
          simp only [Value.width] at hlen ⊢
          simp [readField, CanSet, CanInterface, ReadArray] at hok ⊢
          exact readCells_consumed order es buf hok hlen
      | array es =>
          simp only [Value.width] at hlen ⊢
          simp [readField, CanSet, CanInterface, ReadArray] at hok ⊢
          exact readCells_consumed order es buf hok hlen
      | ptr e => simp [readField, CanSet, CanInterface] at hok
      | other => simp [readField, CanSet, CanInterface] at hok

theorem readFields_consumed (order : ByteOrder) (fields : List (Field Value)) :
    ∀ (buf : List Byte), (readFields bytesBuffer buf fields order).out = .ok →
    widthFields fields ≤ buf.length →
    (readFields bytesBuffer buf fields order).next = buf.drop (widthFields fields) := by
  induction fields using flattenFields.induct with
  | case1 => intro buf _ _; simp [readFields, widthFields]
  | case2 embedded inner rest ihi ihr =>
      intro buf hok hlen
      have hf : readField bytesBuffer buf ⟨true, embedded, .struct inner⟩ order
          = ⟨⟨true, embedded, .struct (readFields bytesBuffer buf inner order).target⟩,
              (readFields bytesBuffer buf inner order).next,
              (readFields bytesBuffer buf inner order).out⟩ := by
        simp [readField, CanSet, CanInterface, ReadStruct, Value.Elem]
      simp only [widthFields, Value.width] at hlen ⊢
      simp only [readFields, hf] at hok ⊢
      by_cases h : (readFields bytesBuffer buf inner order).out = .ok
      · simp only [h, if_true] at hok ⊢
        have h1 := ihi buf h (by omega)
        rw [h1] at hok ⊢
        rw [ihr _ hok (by simp; omega), List.drop_drop]
      · simp only [h, if_false] at hok
  | case3 field rest hns ihr =>
      intro buf hok hlen
      obtain ⟨exported, emb, val⟩ := field
      simp only [widthFields] at hlen ⊢
      simp only [readFields] at hok ⊢
      by_cases h : (readField bytesBuffer buf ⟨exported, emb, val⟩ order).out = .ok
      · simp only [h, if_true] at hok ⊢
        have h1 := readField_consumed_of_not_struct buf _ order hns h (by simp; omega)
        simp only at h1
        rw [h1] at hok ⊢
        rw [ihr _ hok (by simp; omega), List.drop_drop]
      · simp only [h, if_false] at hok

/-- Claim C11: bytes consumed by decode. For every target, byte order and `bytes.Buffer`
that holds at least the sum of the byte widths of the leaves of the target, a successful
`ReadStruct` leaves the buffer with exactly that many bytes removed from its front, so the
bytes beyond stay unread and a second decode starts at the next byte. -/
theorem decode_consumes_sum_of_leaf_widths (buf : List Byte) (v : Value) (order : ByteOrder)
    (hok : (ReadStruct bytesBuffer buf (.ptr v) order).out = .ok)
    (hlen : v.width ≤ buf.length) :
    (ReadStruct bytesBuffer buf (.ptr v) order).next = buf.drop v.width := by
  cases v with
  | struct fs =>
      simp only [Value.width] at hlen ⊢
      simp [ReadStruct] at hok ⊢
      exact readFields_consumed order fs buf hok hlen
  | slice es =>
      simp only [Value.width] at hlen ⊢
      simp [ReadStruct, ReadArray] at hok ⊢
      exact readCells_consumed order es buf hok hlen
  | array es =>
      simp only [Value.width] at hlen ⊢
      simp [ReadStruct, ReadArray] at hok ⊢
      exact readCells_consumed order es buf hok hlen
  | int k n => simp [ReadStruct] at hok
  | uint k n => simp [ReadStruct] at hok
  | ptr e => simp [ReadStruct] at hok
  | other => simp [ReadStruct] at hok
theorem value_singleton (order : ByteOrder) (x : Byte) : order.value [x] = x.val := by
  cases order <;> simp [ByteOrder.value]

theorem readCells_bytes (order : ByteOrder) (old : List Byte) : ∀ (buf : List Byte),
    old.length ≤ buf.length →
    readCells bytesBuffer buf true (old.map fun b => .uint .Uint8 b.val) order
      = ⟨(buf.take old.length).map fun b => .uint .Uint8 b.val, buf.drop old.length, .ok⟩ := by
  induction old with
  | nil => intro buf _; simp [readCells]
  | cons o rest ih =>
      intro buf h
      cases buf with
      | nil => simp at h
      | cons x t =>
          have e := readCell_uint_bytesBuffer (x :: t) order .Uint8 o.val
            (by simp [UintKind.size])
          simp only [UintKind.size, List.take_succ_cons, List.take_zero, List.drop_succ_cons,
            List.drop_zero, value_singleton] at e
          have h2 : rest.length ≤ t.length := by simpa using h
          simp [readCells, e, ih t h2]

theorem ReadStruct_byteSlice (order : ByteOrder) (old buf : List Byte)
    (h : old.length ≤ buf.length) :
    ReadStruct bytesBuffer buf (.ptr (byteSlice old)) order
      = ⟨.ptr (byteSlice (buf.take old.length)), buf.drop old.length, .ok⟩ := by
  simp [byteSlice, ReadStruct, ReadArray, readCells_bytes order old buf h]

/-- Witness for claim C11: the scenario of `TestByteSlice`. Decoding a slice of eight bytes
from `buffer01` consumes eight bytes and yields its first half; a second decode from what is
left yields its second half. -/
theorem decode_consumes_sum_of_leaf_widths_witness :
    ((ReadStruct bytesBuffer buffer01 (.ptr (byteSlice (List.replicate 8 0))) .BigEndian).out
        = .ok
      ∧ (byteSlice (List.replicate 8 0)).width ≤ buffer01.length
      ∧ (ReadStruct bytesBuffer buffer01 (.ptr (byteSlice (List.replicate 8 0))) .BigEndian).next
        = buffer01.drop (byteSlice (List.replicate 8 0)).width)
    ∧ ReadStruct bytesBuffer buffer01 (.ptr (byteSlice (List.replicate 8 0))) .BigEndian
      = ⟨.ptr (byteSlice [0x00, 0x01, 0x02, 0x03, 0x04, 0x05, 0x06, 0x07]),
          [0x08, 0x09, 0x0A, 0x0B, 0x0C, 0x0D, 0x0E, 0x0F], .ok⟩
    ∧ ReadStruct bytesBuffer [0x08, 0x09, 0x0A, 0x0B, 0x0C, 0x0D, 0x0E, 0x0F]
        (.ptr (byteSlice (List.replicate 8 0))) .BigEndian
      = ⟨.ptr (byteSlice [0x08, 0x09, 0x0A, 0x0B, 0x0C, 0x0D, 0x0E, 0x0F]), [], .ok⟩ :=
  have h1 := ReadStruct_byteSlice .BigEndian (List.replicate 8 0) buffer01 (by decide)
  have h2 := ReadStruct_byteSlice .BigEndian (List.replicate 8 0)
    [0x08, 0x09, 0x0A, 0x0B, 0x0C, 0x0D, 0x0E, 0x0F] (by decide)
  have hok : (ReadStruct bytesBuffer buffer01 (.ptr (byteSlice (List.replicate 8 0)))
      .BigEndian).out = .ok := by rw [h1]
  ⟨⟨hok, by decide,
      decode_consumes_sum_of_leaf_widths buffer01 (byteSlice (List.replicate 8 0)) .BigEndian
        hok (by decide)⟩,
    h1, h2⟩

/-! ## The loops of the decoder, cell by cell -/

theorem readCells_append {σ : Type} (reader : Reader σ) (order : ByteOrder) (settable : Bool)
    (xs ys : List Value) (s : σ) :
    readCells reader s settable (xs ++ ys) order
      = (if (readCells reader s settable xs order).out = .ok then
          ⟨(readCells reader s settable xs order).target
              ++ (readCells reader (readCells reader s settable xs order).next settable ys
                    order).target,
            (readCells reader (readCells reader s settable xs order).next settable ys order).next,
            (readCells reader (readCells reader s settable xs order).next settable ys order).out⟩
        else
          ⟨(readCells reader s settable xs order).target ++ ys,
            (readCells reader s settable xs order).next,
            (readCells reader s settable xs order).out⟩) := by
  induction xs generalizing s with
  | nil => simp [readCells]
  | cons x t ih =>
      simp only [List.cons_append, readCells]
      by_cases h : (readCell reader s settable x order).out = .ok
      · simp only [h, if_true, ih]
        by_cases h2 :
            (readCells reader (readCell reader s settable x order).next settable t order).out
              = .ok
        · simp [h2]
        · simp [h2]
      · simp [h]

theorem readCell_fail_target {σ : Type} (reader : Reader σ) (order : ByteOrder) (s : σ)
    (cell : Value) (h : (readCell reader s true cell order).out ≠ .ok) :
    (readCell reader s true cell order).target = cell := by
  cases cell with
  | int k n =>
      simp only [readCell] at h ⊢
      cases he : (ReadInt reader s k.size order).err with
      | some e => simp [he]
      | none =>
          simp only [he] at h ⊢
          cases ho : OverflowInt k (ReadInt reader s k.size order).val
          · simp [ho] at h
          · simp [ho]
  | uint k n =>
      simp only [readCell] at h ⊢
      cases he : (ReadUint reader s k.size order).err with
      | some e => simp [he]
      | none =>
          simp only [he] at h ⊢
          cases ho : OverflowUint k (ReadUint reader s k.size order).val
          · simp [ho] at h
          · simp [ho]
  | struct fs => simp [readCell]
  | slice es => simp [readCell]
  | array es => simp [readCell]
  | ptr e => simp [readCell]
  | other => simp [readCell]

theorem readField_scalar_eq_readCell {σ : Type} (reader : Reader σ) (order : ByteOrder)
    (s : σ) (embedded : Bool) (val : Value)
    (hv : (∃ k n, val = .int k n) ∨ (∃ k n, val = .uint k n)) :
    readField reader s ⟨true, embedded, val⟩ order
      = ⟨⟨true, embedded, (readCell reader s true val order).target⟩,
          (readCell reader s true val order).next, (readCell reader s true val order).out⟩ := by
  rcases hv with ⟨k, n, rfl⟩ | ⟨k, n, rfl⟩
  · simp only [readField, readCell, CanSet, CanInterface]
    cases (ReadInt reader s k.size order).err with
    | some e => simp
    | none => cases OverflowInt k (ReadInt reader s k.size order).val <;> simp
  · simp only [readField, readCell, CanSet, CanInterface]
    cases (ReadUint reader s k.size order).err with
    | some e => simp
    | none => cases OverflowUint k (ReadUint reader s k.size order).val <;> simp

theorem leavesFields_cons (field : Field Value) (rest : List (Field Value)) :
    leavesFields (field :: rest) = field.val.leaves ++ leavesFields rest := by
  obtain ⟨a, b, c⟩ := field
  simp [leavesFields]

theorem ReadStruct_overflow_in_second_field :
    (ReadStruct bytesBuffer [0x01, 0xFF, 0x03]
        (.ptr (.struct [⟨true, false, .uint .Uint8 0⟩, ⟨true, false, .int .Int8 0⟩,
          ⟨true, false, .uint .Uint8 0⟩])) .BigEndian)
      = ⟨.ptr (.struct [⟨true, false, .uint .Uint8 1⟩, ⟨true, false, .int .Int8 0⟩,
          ⟨true, false, .uint .Uint8 0⟩]), [0x03], .error .overflow⟩ := by
  have h1 := readField_uint_bytesBuffer [0x01, 0xFF, 0x03] .BigEndian false .Uint8 0
    (by simp [UintKind.size])
  have h2 : ReadInt bytesBuffer [0xFF, 0x03] 1 .BigEndian = ⟨255, none, [0x03]⟩ := by
    simp [ReadInt, ReadBytes, bytesBuffer, PadBytes, ByteOrder.Uint64, byteAt, toInt64,
      Fin.coe_ofNat_eq_mod]
  have ho : OverflowInt .Int8 255 = true := by decide
  simp [UintKind.size, ByteOrder.value] at h1
  simp [ReadStruct, readFields, h1, readField, CanSet, CanInterface, IntKind.size, h2, ho]

/-! ## Byte-order symmetry (claim C14) -/

/-- Claim C14 fails on the code: `Write` emits the bytes 00 80 for the int16 value 128 in
big-endian; read back in little-endian, `ReadInt` returns 32768 (zero-padded, not
sign-extended) and `ReadStruct` into an int16 field returns the overflow error, where the
byte-reversed value is the int16 -32768. -/
theorem byte_order_symmetry_fails_for_signed :
    Write bufferSink [] (.int .Int16 128) .BigEndian = ⟨2, [0x00, 0x80], .ok⟩
    ∧ ReadInt bytesBuffer [0x00, 0x80] 2 .LittleEndian = ⟨32768, none, []⟩
    ∧ ReadStruct bytesBuffer [0x00, 0x80] (.ptr (.struct [⟨true, false, .int .Int16 0⟩]))
        .LittleEndian
      = ⟨.ptr (.struct [⟨true, false, .int .Int16 0⟩]), [], .error .overflow⟩ := by
  have h : ReadInt bytesBuffer [0x00, 0x80] 2 .LittleEndian = ⟨32768, none, []⟩ := by
    simp [ReadInt, ReadBytes, bytesBuffer, PadBytes, ByteOrder.Uint64, byteAt, toInt64,
      Fin.coe_ofNat_eq_mod]
  have ho : OverflowInt .Int16 32768 = true := by decide
  refine ⟨?_, h, ?_⟩
  · simp [Write, Value.Elem, sinkWrite, bufferSink, ByteOrder.PutUint16, byte]
  · simp [ReadStruct, readFields, readField, CanSet, CanInterface, IntKind.size, h, ho]

/-! ## The flattened walk and where a failing decode stops (claim C15) -/

theorem stepLeaves_append (xs ys : List WalkStep) :
    stepLeaves (xs ++ ys) = stepLeaves xs ++ stepLeaves ys := by
  simp [stepLeaves]

theorem stepLeaves_nil : stepLeaves [] = [] := rfl

theorem stepLeaves_cons (x : WalkStep) (ys : List WalkStep) :
    stepLeaves (x :: ys) = x.leaves ++ stepLeaves ys := by
  simp [stepLeaves]

theorem stepLeaves_map_leaf (cells : List Value) :
    stepLeaves (cells.map WalkStep.leaf) = cells := by
  induction cells with
  | nil => rfl
  | cons c rest ih => simp [stepLeaves_cons, WalkStep.leaves, ih]

theorem walkedTo_stop {σ : Type} (reader : Reader σ) (order : ByteOrder) (s : σ)
    (e : Error) (kept : List Value) :
    WalkedTo reader order s [.stop e kept] kept (.error e) s := by
  refine ⟨fun h => by simp at h, fun _ => ⟨[], .stop e kept, [], by simp, ?_, ?_, ?_⟩⟩
  · simp [readCells]
  · simp [WalkStep.failsWith, readCells]
  · simp [readCells, WalkStep.leaves, stepLeaves]

theorem walkedTo_leaf {σ : Type} (reader : Reader σ) (order : ByteOrder) (s : σ)
    (cell : Value)
    (hfail : (readCell reader s true cell order).out ≠ .ok →
      (readCell reader s true cell order).target = cell) :
    WalkedTo reader order s [.leaf cell] [(readCell reader s true cell order).target]
      (readCell reader s true cell order).out (readCell reader s true cell order).next := by
  constructor
  · intro h
    exact ⟨[cell], by simp, by simp [readCells, h]⟩
  · intro h
    refine ⟨[], .leaf cell, [], by simp, ?_, ?_, ?_⟩
    · simp [readCells]
    · simpa [WalkStep.failsWith, readCells] using h
    · simp [readCells, WalkStep.leaves, stepLeaves, hfail h]

theorem walkedTo_seq {σ : Type} (reader : Reader σ) (order : ByteOrder) (s n1 n2 : σ)
    (st1 st2 : List WalkStep) (a1 a2 : List Value) (o1 o2 : Outcome)
    (h1 : WalkedTo reader order s st1 a1 o1 n1)
    (h2 : o1 = .ok → WalkedTo reader order n1 st2 a2 o2 n2) :
    WalkedTo reader order s (st1 ++ st2) (a1 ++ (if o1 = .ok then a2 else stepLeaves st2))
      (if o1 = .ok then o2 else o1) (if o1 = .ok then n2 else n1) := by
  by_cases ho : o1 = .ok
  · obtain ⟨c1, hc1, e1⟩ := h1.1 ho
    have f2 := h2 ho
    simp only [ho, if_true]
    constructor
    · intro ho2
      obtain ⟨c2, hc2, e2⟩ := f2.1 ho2
      refine ⟨c1 ++ c2, by simp [hc1, hc2], ?_⟩
      rw [readCells_append, e1]
      simp [e2]
    · intro ho2
      obtain ⟨d2, f, l, hst, hok, hf, heq⟩ := f2.2 ho2
      refine ⟨c1 ++ d2, f, l, by simp [hc1, hst], ?_, ?_, ?_⟩
      · rw [readCells_append, e1]
        simp [hok]
      · rw [readCells_append, e1]
        simpa [hok] using hf
      · rw [readCells_append, e1]
        simp [hok, heq]
  · simp only [ho, if_false]
    constructor
    · intro h; exact absurd h ho
    · intro _
      obtain ⟨d, f, l, hst, hok, hf, heq⟩ := h1.2 ho
      refine ⟨d, f, l ++ st2, by simp [hst], hok, hf, ?_⟩
      simp [heq, stepLeaves_append]
theorem readCell_scalar_target_leaves {σ : Type} (reader : Reader σ) (order : ByteOrder)
    (s : σ) (cell : Value) (hv : (∃ k n, cell = .int k n) ∨ (∃ k n, cell = .uint k n)) :
    (readCell reader s true cell order).target.leaves
      = [(readCell reader s true cell order).target] := by
  rcases hv with ⟨k, n, rfl⟩ | ⟨k, n, rfl⟩
  · simp only [readCell]
    cases (ReadInt reader s k.size order).err with
    | some e => simp [Value.leaves]
    | none =>
        cases OverflowInt k (ReadInt reader s k.size order).val <;> simp [Value.leaves, SetInt]
  · simp only [readCell]
    cases (ReadUint reader s k.size order).err with
    | some e => simp [Value.leaves]
    | none =>
        cases OverflowUint k (ReadUint reader s k.size order).val <;>
          simp [Value.leaves, SetUint]

theorem readCell_walkedTo {σ : Type} (reader : Reader σ) (order : ByteOrder) (s : σ)
    (cell : Value) :
    WalkedTo reader order s [walkCell cell] (readCell reader s true cell order).target.leaves
      (readCell reader s true cell order).out (readCell reader s true cell order).next := by
  cases cell with
  | int k n =>
      rw [readCell_scalar_target_leaves reader order s _ (Or.inl ⟨k, n, rfl⟩)]
      exact walkedTo_leaf reader order s _ (readCell_fail_target reader order s _)
  | uint k n =>
      rw [readCell_scalar_target_leaves reader order s _ (Or.inr ⟨k, n, rfl⟩)]
      exact walkedTo_leaf reader order s _ (readCell_fail_target reader order s _)
  | struct fs =>
      have e : readCell reader s true (.struct fs) order
          = ⟨.struct fs, s, .error .destNotPointer⟩ := by simp [readCell, ReadStruct]
      rw [e]
      exact walkedTo_stop reader order s _ _
  | slice es =>
      have e : readCell reader s true (.slice es) order
          = ⟨.slice es, s, .error .arrayNotSupported⟩ := by simp [readCell]
      rw [e]
      exact walkedTo_stop reader order s _ _
  | array es =>
      have e : readCell reader s true (.array es) order
          = ⟨.array es, s, .error .arrayNotSupported⟩ := by simp [readCell]
      rw [e]
      exact walkedTo_stop reader order s _ _
  | ptr p =>
      have e : readCell reader s true (.ptr p) order
          = ⟨.ptr p, s, .error .arrayNotSupported⟩ := by simp [readCell]
      rw [e]
      exact walkedTo_stop reader order s _ _
  | other =>
      have e : readCell reader s true .other order
          = ⟨.other, s, .error .arrayNotSupported⟩ := by simp [readCell]
      rw [e]
      exact walkedTo_stop reader order s _ _

theorem walkedTo_nil {σ : Type} (reader : Reader σ) (order : ByteOrder) (s : σ) :
    WalkedTo reader order s [] [] .ok s :=
  ⟨fun _ => ⟨[], rfl, by simp [readCells]⟩, fun h => absurd rfl h⟩

theorem walkCells_cons (c : Value) (rest : List Value) :
    walkCells (c :: rest) = walkCell c :: walkCells rest := rfl

theorem stepLeaves_walkCells (cells : List Value) :
    stepLeaves (walkCells cells) = leavesList cells := by
  induction cells with
  | nil => rfl
  | cons x t ih =>
      rw [walkCells_cons, stepLeaves_cons, ih, leavesList]
      cases x <;> simp [walkCell, WalkStep.leaves, Value.leaves]

theorem readCells_walkedTo {σ : Type} (reader : Reader σ) (order : ByteOrder)
    (cells : List Value) : ∀ s : σ,
    WalkedTo reader order s (walkCells cells)
      (leavesList (readCells reader s true cells order).target)
      (readCells reader s true cells order).out (readCells reader s true cells order).next := by
  induction cells with
  | nil =>
      intro s
      simp only [readCells, leavesList, walkCells, List.map_nil]
      exact walkedTo_nil reader order s
  | cons c rest ih =>
      intro s
      have h1 := readCell_walkedTo reader order s c
      have h2 := ih (readCell reader s true c order).next
      have h := walkedTo_seq reader order s _ _ _ _ _ _ _ _ h1 (fun _ => h2)
      rw [stepLeaves_walkCells] at h
      simp only [readCells, leavesList, walkCells_cons]
      by_cases hok : (readCell reader s true c order).out = .ok
      · simpa [hok, leavesList] using h
      · simpa [hok, leavesList] using h

theorem walkFields_cons_of_not_struct (field : Field Value) (rest : List (Field Value))
    (h : ∀ (embedded : Bool) (inner : List (Field Value)),
      field = ⟨true, embedded, .struct inner⟩ → False) :
    walkFields (field :: rest) = walkFlatField field ++ walkFields rest := by
  rw [walkFields]
  intro embedded inner hf
  exact h embedded inner hf

theorem stepLeaves_walkFlatField (field : Field Value) :
    stepLeaves (walkFlatField field) = field.val.leaves := by
  obtain ⟨exported, emb, val⟩ := field
  cases exported with
  | false => simp [walkFlatField, stepLeaves_cons, WalkStep.leaves, stepLeaves_nil]
  | true =>
      cases val <;>
        simp [walkFlatField, stepLeaves_cons, WalkStep.leaves, stepLeaves_walkCells,
          Value.leaves, stepLeaves_nil]

theorem stepLeaves_walkFields (fields : List (Field Value)) :
    stepLeaves (walkFields fields) = leavesFields fields := by
  induction fields using flattenFields.induct with
  | case1 => simp [walkFields, leavesFields, stepLeaves_nil]
  | case2 embedded inner rest ihi ihr =>
      rw [walkFields, stepLeaves_append, ihi, ihr, leavesFields_cons]
      simp [Value.leaves]
  | case3 field rest hns ihr =>
      rw [walkFields_cons_of_not_struct field rest hns, stepLeaves_append, ihr,
        stepLeaves_walkFlatField, leavesFields_cons]

theorem stepLeaves_walk (v : Value) : stepLeaves v.walk = v.leaves := by
  cases v <;>
    simp [Value.walk, Value.leaves, stepLeaves_walkFields, stepLeaves_walkCells,
      stepLeaves_cons, WalkStep.leaves, stepLeaves_nil]

theorem readField_walkedTo_of_not_struct {σ : Type} (reader : Reader σ) (order : ByteOrder)
    (s : σ) (field : Field Value)
    (hns : ∀ (embedded : Bool) (inner : List (Field Value)),
      field = ⟨true, embedded, .struct inner⟩ → False) :
    WalkedTo reader order s (walkFlatField field)
      (readField reader s field order).target.val.leaves
      (readField reader s field order).out (readField reader s field order).next := by
  obtain ⟨exported, emb, val⟩ := field
  cases exported with
  | false =>
      have e : readField reader s ⟨false, emb, val⟩ order
          = ⟨⟨false, emb, val⟩, s, .error .notSettable⟩ := by simp [readField, CanSet]
      rw [e]
      simp only [walkFlatField, Bool.not_false, if_true]
      exact walkedTo_stop reader order s _ _
  | true =>
      cases val with
      | struct fs => exact absurd rfl (fun e => hns emb fs e)
      | int k n =>
          rw [readField_scalar_eq_readCell reader order s emb _ (Or.inl ⟨k, n, rfl⟩)]
          exact readCell_walkedTo reader order s _
      | uint k n =>
          rw [readField_scalar_eq_readCell reader order s emb _ (Or.inr ⟨k, n, rfl⟩)]
          exact readCell_walkedTo reader order s _
      | slice es =>
          have e : readField reader s ⟨true, emb, .slice es⟩ order
              = ⟨⟨true, emb, .slice (readCells reader s true es order).target⟩,
                  (readCells reader s true es order).next,
                  (readCells reader s true es order).out⟩ := by
            simp [readField, CanSet, CanInterface, ReadArray, Value.Elem]
          rw [e]
          simp only [Value.leaves, walkFlatField, Bool.not_true, Bool.false_eq_true, if_false]
          exact readCells_walkedTo reader order es s
      | array es =>
          have e : readField reader s ⟨true, emb, .array es⟩ order
              = ⟨⟨true, emb, .array (readCells reader s true es order).target⟩,
                  (readCells reader s true es order).next,
                  (readCells reader s true es order).out⟩ := by
            simp [readField, CanSet, CanInterface, ReadArray, Value.Elem]
          rw [e]
          simp only [Value.leaves, walkFlatField, Bool.not_true, Bool.false_eq_true, if_false]
          exact readCells_walkedTo reader order es s
      | ptr p =>
          have e2 : readField reader s ⟨true, emb, .ptr p⟩ order
              = ⟨⟨true, emb, .ptr p⟩, s, .error .fieldNotSupported⟩ := by
            simp [readField, CanSet, CanInterface]
          rw [e2]
          simp only [walkFlatField, Bool.not_true, Bool.false_eq_true, if_false]
          exact walkedTo_stop reader order s _ _
      | other =>
          have e2 : readField reader s ⟨true, emb, .other⟩ order
              = ⟨⟨true, emb, .other⟩, s, .error .fieldNotSupported⟩ := by
            simp [readField, CanSet, CanInterface]
          rw [e2]
          simp only [walkFlatField, Bool.not_true, Bool.false_eq_true, if_false]
          exact walkedTo_stop reader order s _ _

theorem readFields_walkedTo {σ : Type} (reader : Reader σ) (order : ByteOrder)
    (fields : List (Field Value)) : ∀ s : σ,
    WalkedTo reader order s (walkFields fields)
      (leavesFields (readFields reader s fields order).target)
      (readFields reader s fields order).out (readFields reader s fields order).next := by
  induction fields using flattenFields.induct with
  | case1 =>
      intro s
      simp only [readFields, leavesFields, walkFields]
      exact walkedTo_nil reader order s
  | case2 embedded inner rest ihi ihr =>
      intro s
      have hf : readField reader s ⟨true, embedded, .struct inner⟩ order
          = ⟨⟨true, embedded, .struct (readFields reader s inner order).target⟩,
              (readFields reader s inner order).next, (readFields reader s inner order).out⟩ := by
        simp [readField, CanSet, CanInterface, ReadStruct, Value.Elem]
      have h := walkedTo_seq reader order s _ _ _ _ _ _ _ _ (ihi s)
        (fun _ => ihr (readFields reader s inner order).next)
      rw [stepLeaves_walkFields] at h
      rw [walkFields]
      simp only [readFields, hf, leavesFields_cons, Value.leaves]
      by_cases hok : (readFields reader s inner order).out = .ok
      · simpa [hok, leavesFields_cons, Value.leaves] using h
      · simpa [hok, leavesFields_cons, Value.leaves] using h
  | case3 field rest hns ihr =>
      intro s
      have h1 := readField_walkedTo_of_not_struct reader order s field hns
      have h := walkedTo_seq reader order s _ _ _ _ _ _ _ _ h1
        (fun _ => ihr (readField reader s field order).next)
      rw [stepLeaves_walkFields] at h
      rw [walkFields_cons_of_not_struct field rest hns]
      simp only [readFields, leavesFields_cons]
      by_cases hok : (readField reader s field order).out = .ok
      · simpa [hok, leavesFields_cons] using h
      · simpa [hok, leavesFields_cons] using h

theorem ReadStruct_walkedTo {σ : Type} (reader : Reader σ) (order : ByteOrder) (s : σ)
    (v : Value) :
    WalkedTo reader order s v.walk (ReadStruct reader s (.ptr v) order).target.Elem.leaves
      (ReadStruct reader s (.ptr v) order).out (ReadStruct reader s (.ptr v) order).next := by
  cases v with
  | struct fs =>
      simpa [ReadStruct, Value.Elem, Value.leaves, Value.walk] using
        readFields_walkedTo reader order fs s
  | slice es =>
      simpa [ReadStruct, ReadArray, Value.Elem, Value.leaves, Value.walk] using
        readCells_walkedTo reader order es s
  | array es =>
      simpa [ReadStruct, ReadArray, Value.Elem, Value.leaves, Value.walk] using
        readCells_walkedTo reader order es s
  | int k n =>
      simpa [ReadStruct, Value.Elem, Value.leaves, Value.walk] using
        walkedTo_stop reader order s .unsupportedDataType [Value.int k n]
  | uint k n =>
      simpa [ReadStruct, Value.Elem, Value.leaves, Value.walk] using
        walkedTo_stop reader order s .unsupportedDataType [Value.uint k n]
  | ptr p =>
      simpa [ReadStruct, Value.Elem, Value.leaves, Value.walk] using
        walkedTo_stop reader order s .unsupportedDataType [Value.ptr p]
  | other =>
      simpa [ReadStruct, Value.Elem, Value.leaves, Value.walk] using
        walkedTo_stop reader order s .unsupportedDataType [Value.other]

/-- Claim C15: decode failure is fail-fast and not transactional. When `ReadStruct` does
not succeed, the flattened walk of the target splits into leaves `done`, the step `failing`
and the steps `later`, so that the failing leaf is at position `k = length done`: decoding
the leaves of `done` one after the other from the initial reader succeeds; `failing` is
where the run fails, in the reader state left by `done`, with the outcome and the final
reader state of `ReadStruct`; and afterwards the leaves before `k` hold the values decoded
for them while leaf `k` and every later leaf keep the values they had before the call. -/
theorem decode_failure_is_fail_fast {σ : Type} (reader : Reader σ) (s : σ) (order : ByteOrder)
    (v : Value) (hfail : (ReadStruct reader s (.ptr v) order).out ≠ .ok) :
    ∃ (done : List Value) (failing : WalkStep) (later : List WalkStep),
      v.walk = done.map WalkStep.leaf ++ failing :: later
      ∧ v.leaves = done ++ failing.leaves ++ stepLeaves later
      ∧ (readCells reader s true done order).out = .ok
      ∧ failing.failsWith reader order (readCells reader s true done order).next
          (ReadStruct reader s (.ptr v) order).out (ReadStruct reader s (.ptr v) order).next
      ∧ (ReadStruct reader s (.ptr v) order).target.Elem.leaves
        = (readCells reader s true done order).target ++ failing.leaves
            ++ stepLeaves later := by
  obtain ⟨done, failing, later, hw, hok, hf, heq⟩ :=
    (ReadStruct_walkedTo reader order s v).2 hfail
  refine ⟨done, failing, later, hw, ?_, hok, hf, heq⟩
  rw [← stepLeaves_walk, hw, stepLeaves_append, stepLeaves_map_leaf, stepLeaves_cons,
    List.append_assoc]

/-- Witness for claim C15: over the bytes 01 FF 03, a struct of a uint8, an int8 and a uint8
field fails with overflow at the second field; the first field holds 1, the two others are
as they were, and the byte 03 is unread. -/
theorem decode_failure_is_fail_fast_witness :
    (ReadStruct bytesBuffer [0x01, 0xFF, 0x03] (.ptr uint8Int8Uint8) .BigEndian).out ≠ .ok
    ∧ (∃ (done : List Value) (failing : WalkStep) (later : List WalkStep),
      uint8Int8Uint8.walk = done.map WalkStep.leaf ++ failing :: later
      ∧ uint8Int8Uint8.leaves = done ++ failing.leaves ++ stepLeaves later
      ∧ (readCells bytesBuffer [0x01, 0xFF, 0x03] true done .BigEndian).out = .ok
      ∧ failing.failsWith bytesBuffer .BigEndian
          (readCells bytesBuffer [0x01, 0xFF, 0x03] true done .BigEndian).next
          (ReadStruct bytesBuffer [0x01, 0xFF, 0x03] (.ptr uint8Int8Uint8) .BigEndian).out
          (ReadStruct bytesBuffer [0x01, 0xFF, 0x03] (.ptr uint8Int8Uint8) .BigEndian).next
      ∧ (ReadStruct bytesBuffer [0x01, 0xFF, 0x03] (.ptr uint8Int8Uint8)
            .BigEndian).target.Elem.leaves
        = (readCells bytesBuffer [0x01, 0xFF, 0x03] true done .BigEndian).target
            ++ failing.leaves ++ stepLeaves later)
    ∧ ReadStruct bytesBuffer [0x01, 0xFF, 0x03] (.ptr uint8Int8Uint8) .BigEndian
      = ⟨.ptr (.struct [⟨true, false, .uint .Uint8 1⟩, ⟨true, false, .int .Int8 0⟩,
          ⟨true, false, .uint .Uint8 0⟩]), [0x03], .error .overflow⟩ :=
  have h : (ReadStruct bytesBuffer [0x01, 0xFF, 0x03] (.ptr uint8Int8Uint8) .BigEndian).out
      ≠ .ok := by
    rw [uint8Int8Uint8, ReadStruct_overflow_in_second_field]
    simp
  ⟨h, decode_failure_is_fail_fast bytesBuffer _ .BigEndian _ h,
    ReadStruct_overflow_in_second_field⟩

/-! ## Round trip of sequences of one element kind (claim C1, amended) -/

theorem scalar_plain_of_roundTrips (kind : ScalarKind) (n : ℤ)
    (h : kind.roundTrips n = true) : (kind.scalar n).plain = true := by
  cases kind with
  | signed k =>
      cases k <;> simp_all [ScalarKind.roundTrips, ScalarKind.scalar, Value.plain]
  | unsigned k =>
      cases k <;> simp [ScalarKind.roundTrips, ScalarKind.scalar, Value.plain] at h ⊢ <;> omega

theorem forall₂_sameKind_scalar (kind : ScalarKind) : ∀ (olds vals : List ℤ),
    olds.length = vals.length →
    List.Forall₂ (fun c e => Value.sameKind c e = true)
      (olds.map kind.scalar) (vals.map kind.scalar) := by
  intro olds
  induction olds with
  | nil =>
      intro vals h
      cases vals with
      | nil => exact .nil
      | cons _ _ => simp at h
  | cons o os ih =>
      intro vals h
      cases vals with
      | nil => simp at h
      | cons v vs =>
          refine .cons ?_ (ih vs (by simpa using h))
          cases kind <;> simp [ScalarKind.scalar, Value.sameKind]

/-- Claim C1, amended: for every fixed or variable sequence whose elements all have one
kind among uint8, uint16, uint32, uint64, int64, int16 and int32, with int16 and int32
values not negative, and each byte order, `Write` into a `bytes.Buffer` succeeds, and
`ReadStruct` over exactly the bytes written, into a pointer to a sequence of the same
element kind and length, succeeds, consumes all the bytes and leaves the target equal to
the value written. -/
theorem roundtrip_sequence_of_scalars (order : ByteOrder) (fixed : Bool) (kind : ScalarKind)
    (vals olds : List ℤ) (hv : ∀ n ∈ vals, kind.roundTrips n = true)
    (hl : olds.length = vals.length) :
    (Write bufferSink [] (scalarSeq fixed kind vals) order).out = .ok
    ∧ ReadStruct bytesBuffer (Write bufferSink [] (scalarSeq fixed kind vals) order).next
        (.ptr (scalarSeq fixed kind olds)) order
      = ⟨.ptr (scalarSeq fixed kind vals), [], .ok⟩ := by
  have hp : ∀ e ∈ vals.map kind.scalar, e.plain = true := by
    intro e he
    obtain ⟨n, hn, rfl⟩ := List.mem_map.1 he
    exact scalar_plain_of_roundTrips kind n (hv n hn)
  have hw := writeElems_plain order _ hp
  have hr := readCells_plain order [] _ _ (forall₂_sameKind_scalar kind olds vals hl) hp
  simp only [List.append_nil] at hr
  cases fixed <;>
    simp [scalarSeq, Value.seq, Write, Value.Elem, hw, ReadStruct, ReadArray, hr]

/-- Witness for claim C1 (amended): the slice of the int64 values -1 and 5, big-endian, read
back into a zeroed slice of two int64. -/
theorem roundtrip_sequence_of_scalars_witness :
    (Write bufferSink [] (scalarSeq false (.signed .Int64) [-1, 5]) .BigEndian).out = .ok
    ∧ ReadStruct bytesBuffer
        (Write bufferSink [] (scalarSeq false (.signed .Int64) [-1, 5]) .BigEndian).next
        (.ptr (scalarSeq false (.signed .Int64) [0, 0])) .BigEndian
      = ⟨.ptr (scalarSeq false (.signed .Int64) [-1, 5]), [], .ok⟩ :=
  roundtrip_sequence_of_scalars .BigEndian false (.signed .Int64) [-1, 5] [0, 0]
    (by decide) rfl

end Ioutils
